import Mathlib

/-!
Verification of the Ethernet CSMA/CD simulator (`lab4/ethernet.py`).

The simulator works on a linear cable of `ETHERNET_CABLE_LENGHT` cells; each
cell carries an optional signal per direction (`left` / `right`), where a
signal is a device identifier character or the collision marker `'#'`.
Python's `None` is modelled by `Option.none`.  All definitions below are a
shallow embedding of the Python source: list indexing with mutation becomes
functional `List.set`, the in-place double-buffered propagation pass of
`main` becomes a fold over cell indices, and the global random draws
(`random.choice([1, 2])`, `random.randint(5, 10)`) become explicit oracle
parameters.
-/

namespace Ethernet

/-- Configuration constant `ETHERNET_CABLE_LENGHT = 20` from the source.
All operations additionally take the cable length `N` as an explicit
parameter standing for this global, so that properties can be stated for
any length; concrete inputs instantiate it with 20. -/
def ETHERNET_CABLE_LENGHT : Nat := 20

/-- One segment of the cable: `CableCell` from the source.  The `pos`
attribute always equals the cell's index in the cable list, so it is kept
implicit as the list index. -/
structure Cell where
  left : Option Char
  right : Option Char
deriving DecidableEq

/-- A freshly constructed `CableCell(i)`: both directions empty. -/
def emptyCell : Cell := ⟨none, none⟩

/-- Reading `cable[i]`; out-of-range reads return the empty cell (the
program only reads in range). -/
def getCell (c : List Cell) (i : Nat) : Cell := c.getD i emptyCell

/-- Assigning `cable[i].left = v` (no-op out of range, as the program never
writes out of range). -/
def setLeft (c : List Cell) (i : Nat) (v : Option Char) : List Cell :=
  c.set i ⟨v, (getCell c i).right⟩

/-- Assigning `cable[i].right = v`. -/
def setRight (c : List Cell) (i : Nat) (v : Option Char) : List Cell :=
  c.set i ⟨(getCell c i).left, v⟩

/-- `CableCell.new_signal`: each side becomes the injected signal if it was
empty, otherwise the collision marker. -/
def newSignal (c : List Cell) (i : Nat) (s : Char) : List Cell :=
  c.set i ⟨if (getCell c i).left = none then some s else some '#',
           if (getCell c i).right = none then some s else some '#'⟩

/-- First block of `CableCell.propagate`: `if self.pos != 0`, handle the
left neighbor with the three-way rule (collision / signal coming from the
left / signal going to the left). -/
def propagateLeftBlock (cable nc : List Cell) (i : Nat) : List Cell :=
  if i ≠ 0 then
    let self := getCell cable i
    let lneigh := getCell cable (i - 1)
    if self.left ≠ none ∧ lneigh.right ≠ none then
      setRight (setLeft nc (i - 1) (some '#')) i (some '#')
    else if lneigh.right ≠ none then
      setRight nc i lneigh.right
    else if self.left ≠ none then
      setLeft nc (i - 1) self.left
    else nc
  else nc

/-- Second block of `CableCell.propagate`:
`if self.pos != ETHERNET_CABLE_LENGHT - 1`, handle the right neighbor. -/
def propagateRightBlock (N : Nat) (cable nc : List Cell) (i : Nat) :
    List Cell :=
  if i ≠ N - 1 then
    let self := getCell cable i
    let rneigh := getCell cable (i + 1)
    if self.right ≠ none ∧ rneigh.left ≠ none then
      setLeft (setRight nc (i + 1) (some '#')) i (some '#')
    else if rneigh.left ≠ none then
      setLeft nc i rneigh.left
    else if self.right ≠ none then
      setRight nc (i + 1) self.right
    else nc
  else nc

/-- Last block of `CableCell.propagate`: if the next-state cell ended up
with both sides present, set both to the collision marker. -/
def collapseBlock (nc : List Cell) (i : Nat) : List Cell :=
  if (getCell nc i).left ≠ none ∧ (getCell nc i).right ≠ none then
    setRight (setLeft nc i (some '#')) i (some '#')
  else nc

/-- `CableCell.propagate(cable, new_cable)` for the cell at index `i`:
reads the current snapshot `cable`, updates the next snapshot `nc` in
place, running the three blocks of the Python method in order. -/
def propagateCell (N : Nat) (cable nc : List Cell) (i : Nat) : List Cell :=
  collapseBlock (propagateRightBlock N cable (propagateLeftBlock cable nc i) i) i

/-- The propagation pass of `main` after processing the first `j` cells:
`new_cable = [CableCell(i) for i in range(N)]` followed by
`for cell in cable[:j]: cell.propagate(cable, new_cable)`. -/
def propagateUpTo (N : Nat) (cable : List Cell) (j : Nat) : List Cell :=
  (List.range j).foldl (fun nc i => propagateCell N cable nc i)
    (List.replicate N emptyCell)

/-- One full propagation step of the driver loop in `main`:
all `N` cells processed in index order. -/
def propagateAll (N : Nat) (cable : List Cell) : List Cell :=
  propagateUpTo N cable N

/-- The signal that the sequential pass leaves on the `left` side of
next-state cell `i` (derived below): the left-bound signal of the right
neighbor, or the collision marker when that signal meets this cell's
right-bound signal. -/
def rawLeft (N : Nat) (cable : List Cell) (i : Nat) : Option Char :=
  if i < N - 1 then
    if (getCell cable i).right ≠ none ∧ (getCell cable (i + 1)).left ≠ none
    then some '#'
    else (getCell cable (i + 1)).left
  else none

/-- The pre-collapse signal on the `right` side of next-state cell `i`:
the right-bound signal of the left neighbor, or the collision marker when
it meets this cell's left-bound signal. -/
def rawRight (N : Nat) (cable : List Cell) (i : Nat) : Option Char :=
  if i ≠ 0 then
    if (getCell cable (i - 1)).right ≠ none ∧ (getCell cable i).left ≠ none
    then some '#'
    else (getCell cable (i - 1)).right
  else none

/-- What one full pass actually leaves in next-state cell `i` (proved
below): the left side is `rawLeft` — the both-sides collapse of the Python
code is later overwritten on the left side by the right neighbor's pass —
while the right side does keep the collapse marker. -/
def nextCell (N : Nat) (cable : List Cell) (i : Nat) : Cell :=
  ⟨rawLeft N cable i,
   if rawLeft N cable i ≠ none ∧ rawRight N cable i ≠ none then some '#'
   else rawRight N cable i⟩

/-- Intermediate description of the next-state buffer after the pass has
processed cells `0..j-1`:  cells below `j - 1` are final, cell `j - 1`
still shows the both-sides collapse on both sides, cell `j` has received
only its right-side signal, and cells beyond are untouched. -/
def midCell (N : Nat) (cable : List Cell) (j i : Nat) : Cell :=
  if i + 1 < j then nextCell N cable i
  else if i + 1 = j then
    ⟨if rawLeft N cable i ≠ none ∧ rawRight N cable i ≠ none then some '#'
      else rawLeft N cable i,
     if rawLeft N cable i ≠ none ∧ rawRight N cable i ≠ none then some '#'
      else rawRight N cable i⟩
  else if i = j then ⟨none, rawRight N cable i⟩
  else ⟨none, none⟩

/-- Conditional write of a left-side signal: a no-op when the signal is
absent.  `propagateLeftBlock`/`propagateRightBlock` are shown below to be
equivalent to two such conditional writes. -/
def putLeft (nc : List Cell) (i : Nat) (v : Option Char) : List Cell :=
  if v = none then nc else setLeft nc i v

/-- Conditional write of a right-side signal (no-op when absent). -/
def putRight (nc : List Cell) (i : Nat) (v : Option Char) : List Cell :=
  if v = none then nc else setRight nc i v

/-- `CableCell.__str__`: blank for an empty cell, otherwise the left side
takes precedence over the right side. -/
def cellStr (c : Cell) : Char :=
  match c.left, c.right with
  | none, none => '_'
  | none, some r => r
  | some l, _ => l

/-- `Transmission` from the source.  Field `left` is the remaining bit
count, `wait` the post-transmission collision-detection window, `sleep`
the backoff countdown. -/
structure Transmission where
  src : Char
  pos : Nat
  len : Nat
  left : Nat
  wait : Nat
  sleep : Nat
deriving DecidableEq

/-- `Transmission.__init__(src, pos, len)`: remaining count starts at the
full length, the collision-detection wait at the full medium length
(`ETHERNET_CABLE_LENGHT`, passed as `N`), backoff at zero. -/
def Transmission.make (N : Nat) (src : Char) (pos len : Nat) :
    Transmission :=
  ⟨src, pos, len, len, N, 0⟩

/-- `Transmission.__init__` as a fallible constructor.  The Python
constructor contains no validation and no `raise`, so construction always
succeeds; this wrapper makes "fails at construction" statable. -/
def Transmission.construct (N : Nat) (src : Char) (pos len : Nat) :
    Except String Transmission :=
  Except.ok (Transmission.make N src pos len)

/-- `Transmission.transmit(cable)`.  The draw `random.choice([1, 2])` is
passed in as the oracle `m`; the backoff becomes `m * N`.  Returns
(finished, updated transmission, updated cable). -/
def transmit (N : Nat) (t : Transmission) (cable : List Cell) (m : Nat) :
    Bool × Transmission × List Cell :=
  if t.wait = 0 then (true, t, cable)
  else if t.sleep > 0 then (false, { t with sleep := t.sleep - 1 }, cable)
  else if (getCell cable t.pos).left = some '#' ∨
      (getCell cable t.pos).right = some '#' then
    (false, { t with sleep := m * N, wait := N, left := t.len }, cable)
  else if t.left = 0 then
    (false, { t with wait := t.wait - 1 }, cable)
  else if (getCell cable t.pos).left = none ∧
      (getCell cable t.pos).right = none then
    (false, { t with left := t.left - 1 }, newSignal cable t.pos t.src)
  else (false, t, cable)

/-- `Device` from the source: a name, a position, a round counter, an
optional active transmission and the scheduled queue of
(release round, transmission) pairs. -/
structure Device where
  name : Char
  pos : Nat
  round : Nat
  transmission : Option Transmission
  transmissions : List (Nat × Transmission)
deriving DecidableEq

/-- `Device.__init__(name, pos, rounds)`.  The packet length of each
queued transmission is drawn by `random.randint(5, 10)` in the source;
the draws are passed in as the second components of `schedule`. -/
def Device.make (N : Nat) (name : Char) (pos : Nat)
    (schedule : List (Nat × Nat)) : Device :=
  ⟨name, pos, 0, none,
    schedule.map (fun rl => (rl.1, Transmission.make N name pos rl.2))⟩

/-- `Device.__init__` as a fallible constructor; like
`Transmission.__init__` it contains no validation and always succeeds. -/
def Device.construct (N : Nat) (name : Char) (pos : Nat)
    (schedule : List (Nat × Nat)) : Except String Device :=
  Except.ok (Device.make N name pos schedule)

/-- The queue part of `Device.refresh`: if transmissions are scheduled and
the head is due, pop it, make it active and invoke its `transmit` once;
a non-empty queue always reports the device as live.  An empty queue with
no active transmission reports the device as finished. -/
def refreshQueue (N : Nat) (d : Device) (cable : List Cell) (m : Nat) :
    Bool × Device × List Cell :=
  match d.transmissions with
  | [] => (false, d, cable)
  | (r, t) :: rest =>
    if d.round ≥ r then
      let res := transmit N t cable m
      (true, { d with transmission := some res.2.1, transmissions := rest },
        res.2.2)
    else (true, d, cable)

/-- `Device.refresh(cable)`: increment the round counter; advance an
active transmission (returning live immediately unless it finished, in
which case it is cleared and the queue is consulted); otherwise consult
the queue. -/
def refresh (N : Nat) (d : Device) (cable : List Cell) (m : Nat) :
    Bool × Device × List Cell :=
  let d1 : Device := { d with round := d.round + 1 }
  match d1.transmission with
  | some t =>
    let res := transmit N t cable m
    if res.1 then refreshQueue N { d1 with transmission := none } res.2.2 m
    else (true, { d1 with transmission := some res.2.1 }, res.2.2)
  | none => refreshQueue N d1 cable m

/-- The device pass of one driver round:
`devices = [d for d in devices if d.refresh(cable)]` evaluates `refresh`
for each device in list order against the shared, sequentially mutated
cable.  Each device carries its own backoff oracle `m`: this is the
per-device-draw model, in which a permutation carries each device's draw
with it; the faithful model of the source's shared global generator,
which serves draws to the devices in iteration order, is `runPassRng`
below.  Returns the final cable together with every device's keep-flag
and updated state. -/
def runPass (N : Nat) (cable : List Cell) (ds : List (Device × Nat)) :
    List Cell × List (Bool × Device) :=
  match ds with
  | [] => (cable, [])
  | dm :: rest =>
    let r := refresh N dm.1 cable dm.2
    let out := runPass N r.2.2 rest
    (out.1, (r.1, r.2.1) :: out.2)

/-- One round of the driver loop in `main` for a single device:
propagate the cable, then refresh the device against the new cable.
Returns (keep-flag, new cable, new device). -/
def driverStep (N m : Nat) (cd : List Cell × Device) :
    Bool × List Cell × Device :=
  let c1 := propagateAll N cd.1
  let r := refresh N cd.2 c1 m
  (r.1, r.2.2, r.2.1)

/-- The state of the single-device simulation after `t` rounds. -/
def soloRun (N m : Nat) (cd : List Cell × Device) : Nat → List Cell × Device
  | 0 => cd
  | t + 1 => (driverStep N m (soloRun N m cd t)).2

/-- The directional invariant of a medium carrying only traffic of one
device at position `p`: every left-bound signal is the device's identifier
at a cell at or left of `p`, every right-bound signal its identifier at or
right of `p`. -/
def cableInv (s : Char) (p : Nat) (c : List Cell) : Prop :=
  ∀ i : Nat,
    ((getCell c i).left ≠ none → (getCell c i).left = some s ∧ i ≤ p) ∧
    ((getCell c i).right ≠ none → (getCell c i).right = some s ∧ p ≤ i)

/-- Initial state of the lone-device run: empty cable, one device at `p`
with a single scheduled transmission (release round `r`, length `len`). -/
def soloInit (N p len r : Nat) (s : Char) : List Cell × Device :=
  (List.replicate N emptyCell, Device.make N s p [(r, len)])

/-- The expected device state of the lone-device run after `t` rounds:
waiting for release before `r`; sending one bit per round for `len`
rounds; counting the collision-detection window down for `N` rounds;
finished afterwards. -/
def soloDescr (N p len r : Nat) (s : Char) (t : Nat) : Device :=
  if t < r then ⟨s, p, t, none, [(r, Transmission.make N s p len)]⟩
  else if t < r + len then
    ⟨s, p, t, some ⟨s, p, len, len - (t - r) - 1, N, 0⟩, []⟩
  else if t < r + len + N then
    ⟨s, p, t, some ⟨s, p, len, 0, N - (t - (r + len)) - 1, 0⟩, []⟩
  else ⟨s, p, t, none, []⟩

/-- Erase the two signals that have no propagation rule: the left-bound
signal of cell `0` and the right-bound signal of cell `N - 1`. -/
def eraseEnds (N : Nat) (cable : List Cell) : List Cell :=
  setRight (setLeft cable 0 none) (N - 1) none

/-- An all-empty cable of the configured length. -/
def emptyCable20 : List Cell := List.replicate 20 emptyCell

/-- Two opposite-bound signals two cells apart (`cable[5].right = 'A'`,
`cable[7].left = 'B'`), as arises when the fronts of the devices at
positions 3 and 9 of `main` approach each other. -/
def cableMeet : List Cell :=
  (emptyCable20.set 5 ⟨none, some 'A'⟩).set 7 ⟨some 'B', none⟩

/-- Two opposite-bound signals two cells apart carrying the same
identifier. -/
def cableSameId : List Cell :=
  (emptyCable20.set 5 ⟨none, some 'A'⟩).set 7 ⟨some 'A', none⟩

/-- A cable showing the collision marker at position 3. -/
def cableHash : List Cell := emptyCable20.set 3 ⟨some '#', none⟩

/-- A transmission in mid-flight: 2 bits left, full wait, no backoff. -/
def busyTrans : Transmission := ⟨'A', 3, 5, 2, 20, 0⟩

/-- A scheduled transmission of length 7. -/
def queuedTrans : Transmission := Transmission.make 20 'A' 3 7

/-- A device still busy with `busyTrans` whose queued head entry is
already due (release round 5, counter 10). -/
def busyDevice : Device := ⟨'A', 3, 10, some busyTrans, [(5, queuedTrans)]⟩

/-- An idle device whose queued head entry is due. -/
def idleDevice : Device := ⟨'B', 9, 10, none, [(5, queuedTrans)]⟩

/-- One full driver round of the two-device scenario (spec concrete
scenario: devices at positions 3 and 9, both releasing a 6-bit packet at
round 1): propagate, then refresh the devices in list order against the
shared cable.  The backoff oracle is fixed to 1 (never consulted in the
rounds used below). -/
def twoDevPass (w : List Cell × List (Device × Nat)) :
    List Cell × List (Device × Nat) :=
  let r := runPass 20 (propagateAll 20 w.1) w.2
  (r.1, r.2.map (fun bd => (bd.2, 1)))

/-- The two-device scenario after `t` driver rounds. -/
def twoDevRound : Nat → List Cell × List (Device × Nat)
  | 0 => (emptyCable20,
      [(Device.make 20 'A' 3 [(1, 6)], 1), (Device.make 20 'B' 9 [(1, 6)], 1)])
  | t + 1 => twoDevPass (twoDevRound t)

/-- A cable whose only content is one freshly injected signal at cell `i`
(both sides set, as `new_signal` leaves an empty cell). -/
def singleSignal (N i : Nat) (s : Char) : List Cell :=
  (List.replicate N emptyCell).set i ⟨some s, some s⟩

/-- The expected shape of a lone spreading signal: a left-bound copy at
the left edge `a`, a right-bound copy at the right edge `b`, nothing
anywhere else. -/
def edgeShape (a b : Nat) (s : Char) (j : Nat) : Cell :=
  if j = a then ⟨some s, none⟩
  else if j = b then ⟨none, some s⟩
  else emptyCell

/-- `Transmission.transmit` acting on the single cell it can see:
`transmit` only ever reads and writes `cable[self.pos]`, and this function
is proved below to capture it exactly. -/
def transmitCell (N : Nat) (t : Transmission) (cell : Cell) (m : Nat) :
    Bool × Transmission × Cell :=
  if t.wait = 0 then (true, t, cell)
  else if t.sleep > 0 then (false, { t with sleep := t.sleep - 1 }, cell)
  else if cell.left = some '#' ∨ cell.right = some '#' then
    (false, { t with sleep := m * N, wait := N, left := t.len }, cell)
  else if t.left = 0 then (false, { t with wait := t.wait - 1 }, cell)
  else if cell.left = none ∧ cell.right = none then
    (false, { t with left := t.left - 1 },
      ⟨if cell.left = none then some t.src else some '#',
       if cell.right = none then some t.src else some '#'⟩)
  else (false, t, cell)

/-- Every transmission a device owns (active or queued) is attached at the
device's own position — an invariant of `Device.__init__`, which creates
all of them with the device's position. -/
def devWellPlaced (d : Device) : Bool :=
  (match d.transmission with
   | some t => t.pos == d.pos
   | none => true) &&
  d.transmissions.all (fun rt => rt.2.pos == d.pos)

/-- `Transmission.transmit(cable)` with the backoff draw taken from the
shared random stream `rng`: the successive values `random.choice([1, 2])`
would return from the global generator, consumed exactly when the
collision branch runs (the only place the source calls the generator
during a pass) and left untouched by every other branch.  This is the
faithful model of the source's shared-generator randomness; `transmit`
above is the same function with the draw attached to the call. -/
def transmitRng (N : Nat) (t : Transmission) (cable : List Cell)
    (rng : List Nat) : Bool × Transmission × List Cell × List Nat :=
  if t.wait = 0 then (true, t, cable, rng)
  else if t.sleep > 0 then
    (false, { t with sleep := t.sleep - 1 }, cable, rng)
  else if (getCell cable t.pos).left = some '#' ∨
      (getCell cable t.pos).right = some '#' then
    (false, { t with sleep := rng.headD 1 * N, wait := N, left := t.len },
      cable, rng.tail)
  else if t.left = 0 then
    (false, { t with wait := t.wait - 1 }, cable, rng)
  else if (getCell cable t.pos).left = none ∧
      (getCell cable t.pos).right = none then
    (false, { t with left := t.left - 1 }, newSignal cable t.pos t.src, rng)
  else (false, t, cable, rng)

/-- The queue part of `Device.refresh` with the shared random stream
threaded through. -/
def refreshQueueRng (N : Nat) (d : Device) (cable : List Cell)
    (rng : List Nat) : Bool × Device × List Cell × List Nat :=
  match d.transmissions with
  | [] => (false, d, cable, rng)
  | (r, t) :: rest =>
    if d.round ≥ r then
      let res := transmitRng N t cable rng
      (true, { d with transmission := some res.2.1, transmissions := rest },
        res.2.2.1, res.2.2.2)
    else (true, d, cable, rng)

/-- `Device.refresh(cable)` with the shared random stream threaded
through. -/
def refreshRng (N : Nat) (d : Device) (cable : List Cell) (rng : List Nat) :
    Bool × Device × List Cell × List Nat :=
  let d1 : Device := { d with round := d.round + 1 }
  match d1.transmission with
  | some t =>
    let res := transmitRng N t cable rng
    if res.1 then
      refreshQueueRng N { d1 with transmission := none } res.2.2.1 res.2.2.2
    else (true, { d1 with transmission := some res.2.1 }, res.2.2.1, res.2.2.2)
  | none => refreshQueueRng N d1 cable rng

/-- The device pass of one driver round with the source's shared
generator: refreshes run in list (iteration) order and draw from the one
stream `rng` in that order, exactly as `random.choice` serves callers in
sequence.  Returns the final cable, every device's keep-flag and updated
state, and the remaining stream. -/
def runPassRng (N : Nat) (cable : List Cell) (ds : List Device)
    (rng : List Nat) : List Cell × List (Bool × Device) × List Nat :=
  match ds with
  | [] => (cable, [], rng)
  | d :: rest =>
    let r := refreshRng N d cable rng
    let out := runPassRng N r.2.2.1 rest r.2.2.2
    (out.1, (r.1, r.2.1) :: out.2.1, out.2.2)

/-- The two devices of the concrete scenario (positions 3 and 9, each
releasing a 6-bit packet at round 1) in list (iteration) order. -/
def twoDevList : List Device :=
  [Device.make 20 'A' 3 [(1, 6)], Device.make 20 'B' 9 [(1, 6)]]

/-- The two-device scenario after `t` driver rounds under the
shared-stream model: per round, propagate the cable, run the refresh
pass in list order against the shared stream, and keep exactly the
devices whose refresh returned true, in order — `main`'s
`devices = [d for d in devices if d.refresh(cable)]`. -/
def twoDevRngRound (ds0 : List Device) (rng0 : List Nat) :
    Nat → List Cell × List Device × List Nat
  | 0 => (emptyCable20, ds0, rng0)
  | t + 1 =>
    let w := twoDevRngRound ds0 rng0 t
    let r := runPassRng 20 (propagateAll 20 w.1) w.2.1 w.2.2
    (r.1, r.2.1.filterMap (fun bd => if bd.1 then some bd.2 else none),
      r.2.2)

end Ethernet

namespace Ethernet

theorem getCell_set (c : List Cell) (i j : Nat) (x : Cell) :
    getCell (c.set i x) j =
      if i = j ∧ j < c.length then x else getCell c j := by
  induction c generalizing i j with
  | nil => simp [getCell]
  | cons a t ih =>
    cases i with
    | zero =>
      cases j with
      | zero => simp [getCell]
      | succ j => simp [getCell, List.set]
    | succ i =>
      cases j with
      | zero => simp [getCell, List.set]
      | succ j =>
        simp only [List.set, getCell, List.getD_cons_succ, List.length_cons]
        have h := ih i j
        simp only [getCell] at h
        rw [h]
        by_cases hij : i = j
        · subst hij
          by_cases hlen : i < t.length <;> simp [hlen, Nat.succ_lt_succ_iff]
        · simp [hij]

theorem getCell_out (c : List Cell) (i : Nat) (h : c.length ≤ i) :
    getCell c i = emptyCell := by
  simp [getCell, List.getD_eq_getElem?_getD, List.getElem?_eq_none h]

theorem length_setLeft (nc : List Cell) (i : Nat) (v : Option Char) :
    (setLeft nc i v).length = nc.length := List.length_set ..

theorem length_setRight (nc : List Cell) (i : Nat) (v : Option Char) :
    (setRight nc i v).length = nc.length := List.length_set ..

theorem length_putLeft (nc : List Cell) (i : Nat) (v : Option Char) :
    (putLeft nc i v).length = nc.length := by
  unfold putLeft; split <;> simp [length_setLeft]

theorem length_putRight (nc : List Cell) (i : Nat) (v : Option Char) :
    (putRight nc i v).length = nc.length := by
  unfold putRight; split <;> simp [length_setRight]

theorem getCell_setLeft (nc : List Cell) (k : Nat) (v : Option Char)
    (i : Nat) :
    getCell (setLeft nc k v) i =
      if k = i ∧ i < nc.length then ⟨v, (getCell nc i).right⟩
      else getCell nc i := by
  unfold setLeft
  rw [getCell_set]
  by_cases h : k = i
  · subst h; split <;> simp_all
  · simp [h]

theorem getCell_setRight (nc : List Cell) (k : Nat) (v : Option Char)
    (i : Nat) :
    getCell (setRight nc k v) i =
      if k = i ∧ i < nc.length then ⟨(getCell nc i).left, v⟩
      else getCell nc i := by
  unfold setRight
  rw [getCell_set]
  by_cases h : k = i
  · subst h; split <;> simp_all
  · simp [h]

theorem getCell_putLeft (nc : List Cell) (k : Nat) (v : Option Char)
    (i : Nat) :
    getCell (putLeft nc k v) i =
      if k = i ∧ i < nc.length ∧ v ≠ none then ⟨v, (getCell nc i).right⟩
      else getCell nc i := by
  unfold putLeft
  by_cases hv : v = none
  · simp [hv]
  · rw [if_neg hv, getCell_setLeft]
    by_cases h : k = i ∧ i < nc.length
    · simp [h, hv]
    · rw [if_neg h, if_neg (by tauto)]

theorem getCell_putRight (nc : List Cell) (k : Nat) (v : Option Char)
    (i : Nat) :
    getCell (putRight nc k v) i =
      if k = i ∧ i < nc.length ∧ v ≠ none then ⟨(getCell nc i).left, v⟩
      else getCell nc i := by
  unfold putRight
  by_cases hv : v = none
  · simp [hv]
  · rw [if_neg hv, getCell_setRight]
    by_cases h : k = i ∧ i < nc.length
    · simp [h, hv]
    · rw [if_neg h, if_neg (by tauto)]

theorem setLeft_setRight_comm (nc : List Cell) (i k : Nat)
    (v w : Option Char) (h : i ≠ k) :
    setLeft (setRight nc k v) i w = setRight (setLeft nc i w) k v := by
  unfold setLeft setRight
  rw [getCell_set, getCell_set, if_neg (by tauto), if_neg (by tauto),
    List.set_comm _ _ _ (by omega)]

/-- The left-neighbor block is two conditional writes: the signal the pair
rule sends into the left neighbor's left side and into this cell's right
side. -/
theorem leftBlock_eq (N : Nat) (cable nc : List Cell) (j : Nat)
    (hj0 : j ≠ 0) (hjN : j < N) :
    propagateLeftBlock cable nc j =
      putRight (putLeft nc (j - 1) (rawLeft N cable (j - 1))) j
        (rawRight N cable j) := by
  have hsub : j - 1 + 1 = j := by omega
  have hlt : j - 1 < N - 1 := by omega
  unfold propagateLeftBlock rawLeft rawRight
  rw [if_pos hj0, if_pos hlt, if_pos hj0, hsub]
  rcases hL : (getCell cable j).left with _ | a <;>
    rcases hR : (getCell cable (j - 1)).right with _ | b <;>
      simp [hL, hR, putLeft, putRight]

/-- The right-neighbor block is two conditional writes: the signal the
pair rule sends into this cell's left side and into the right neighbor's
right side. -/
theorem rightBlock_eq (N : Nat) (cable nc : List Cell) (j : Nat)
    (hjN1 : j ≠ N - 1) (hjN : j < N) :
    propagateRightBlock N cable nc j =
      putRight (putLeft nc j (rawLeft N cable j)) (j + 1)
        (rawRight N cable (j + 1)) := by
  have hlt : j < N - 1 := by omega
  unfold propagateRightBlock rawLeft rawRight
  rw [if_pos hjN1, if_pos hlt, if_pos (show j + 1 ≠ 0 by omega)]
  simp only [Nat.add_sub_cancel]
  rcases hR : (getCell cable j).right with _ | a <;>
    rcases hL : (getCell cable (j + 1)).left with _ | b <;>
      simp [hR, hL, putLeft, putRight]
  exact setLeft_setRight_comm nc j (j + 1) (some '#') (some '#') (by omega)

theorem leftBlock_zero (cable nc : List Cell) :
    propagateLeftBlock cable nc 0 = nc := by
  simp [propagateLeftBlock]

theorem rightBlock_last (N : Nat) (cable nc : List Cell) :
    propagateRightBlock N cable nc (N - 1) = nc := by
  simp [propagateRightBlock]

/-- The collapse block overwrites the whole cell with the collision pair
when both sides are present. -/
theorem collapseBlock_eq (nc : List Cell) (i : Nat) :
    collapseBlock nc i =
      if (getCell nc i).left ≠ none ∧ (getCell nc i).right ≠ none then
        nc.set i ⟨some '#', some '#'⟩
      else nc := by
  unfold collapseBlock
  split
  · unfold setLeft setRight
    rw [getCell_set]
    by_cases h : i < nc.length
    · simp [h, List.set_set]
    · have h1 : nc.length ≤ i := by omega
      rw [List.set_eq_of_length_le h1, List.set_eq_of_length_le h1,
        List.set_eq_of_length_le h1]
  · rfl

theorem length_leftBlock (cable nc : List Cell) (j : Nat) :
    (propagateLeftBlock cable nc j).length = nc.length := by
  unfold propagateLeftBlock
  dsimp only
  split_ifs <;> simp [length_setLeft, length_setRight]

theorem length_rightBlock (N : Nat) (cable nc : List Cell) (j : Nat) :
    (propagateRightBlock N cable nc j).length = nc.length := by
  unfold propagateRightBlock
  dsimp only
  split_ifs <;> simp [length_setLeft, length_setRight]

theorem length_collapseBlock (nc : List Cell) (j : Nat) :
    (collapseBlock nc j).length = nc.length := by
  unfold collapseBlock
  split
  · simp [length_setLeft, length_setRight]
  · rfl

theorem length_propagateCell (N : Nat) (cable nc : List Cell) (j : Nat) :
    (propagateCell N cable nc j).length = nc.length := by
  unfold propagateCell
  rw [length_collapseBlock, length_rightBlock, length_leftBlock]

theorem getCell_replicate (n i : Nat) :
    getCell (List.replicate n emptyCell) i = emptyCell := by
  induction n generalizing i with
  | zero => simp [getCell]
  | succ n ih =>
    cases i with
    | zero => simp [getCell, List.replicate]
    | succ i =>
      have h := ih i
      simp only [getCell, List.replicate, List.getD_cons_succ] at h ⊢
      exact h

theorem midCell_pred (N : Nat) (cable : List Cell) (j : Nat) (hj0 : j ≠ 0) :
    midCell N cable j (j - 1) =
      ⟨if rawLeft N cable (j - 1) ≠ none ∧ rawRight N cable (j - 1) ≠ none
        then some '#' else rawLeft N cable (j - 1),
       if rawLeft N cable (j - 1) ≠ none ∧ rawRight N cable (j - 1) ≠ none
        then some '#' else rawRight N cable (j - 1)⟩ := by
  unfold midCell
  rw [if_neg (show ¬(j - 1 + 1 < j) by omega),
    if_pos (show j - 1 + 1 = j by omega)]

theorem midCell_self (N : Nat) (cable : List Cell) (j : Nat) :
    midCell N cable j j = ⟨none, rawRight N cable j⟩ := by
  unfold midCell
  rw [if_neg (show ¬(j + 1 < j) by omega),
    if_neg (show ¬(j + 1 = j) by omega), if_pos rfl]

theorem midCell_lt (N : Nat) (cable : List Cell) (j i : Nat)
    (h : i + 1 < j) : midCell N cable j i = nextCell N cable i := by
  unfold midCell
  rw [if_pos h]

theorem midCell_far (N : Nat) (cable : List Cell) (j i : Nat)
    (h1 : ¬ i + 1 < j) (h2 : i + 1 ≠ j) (h3 : i ≠ j) :
    midCell N cable j i = ⟨none, none⟩ := by
  unfold midCell
  rw [if_neg h1, if_neg h2, if_neg h3]

theorem propagateUpTo_succ (N : Nat) (cable : List Cell) (j : Nat) :
    propagateUpTo N cable (j + 1) =
      propagateCell N cable (propagateUpTo N cable j) j := by
  unfold propagateUpTo
  rw [List.range_succ, List.foldl_append]
  rfl

theorem length_propagateUpTo (N : Nat) (cable : List Cell) (j : Nat) :
    (propagateUpTo N cable j).length = N := by
  induction j with
  | zero => simp [propagateUpTo]
  | succ j ih => rw [propagateUpTo_succ, length_propagateCell, ih]

/-- Pointwise effect of the left-neighbor block as the pass reaches cell
`j`: it finalizes cell `j - 1` and fills in cell `j`'s right side. -/
theorem leftBlock_getCell (N : Nat) (cable : List Cell) (j : Nat)
    (hjN : j < N) (pj : List Cell) (hlen : pj.length = N)
    (hpj : ∀ i, i < N → getCell pj i = midCell N cable j i) :
    ∀ i, i < N → getCell (propagateLeftBlock cable pj j) i =
      if i + 1 = j then nextCell N cable i
      else if i = j then ⟨none, rawRight N cable j⟩
      else midCell N cable j i := by
  intro i hi
  by_cases hj0 : j = 0
  · subst hj0
    rw [leftBlock_zero, hpj i hi, if_neg (show ¬(i + 1 = 0) by omega)]
    by_cases hi0 : i = 0
    · subst hi0
      rw [if_pos rfl, midCell_self]
    · rw [if_neg hi0]
  · rw [leftBlock_eq N cable pj j hj0 hjN, getCell_putRight, getCell_putLeft,
      length_putLeft, hlen]
    by_cases hij1 : i = j - 1
    · have hc1 : ¬(j = i ∧ i < N ∧ rawRight N cable j ≠ none) :=
        fun h => absurd h.1 (by omega)
      rw [if_neg hc1, hpj i hi, hij1, midCell_pred N cable j hj0,
        if_pos (show j - 1 + 1 = j by omega)]
      unfold nextCell
      by_cases hL : rawLeft N cable (j - 1) = none
      · have hcL : ¬(j - 1 = j - 1 ∧ j - 1 < N ∧
            rawLeft N cable (j - 1) ≠ none) := fun h => h.2.2 hL
        rw [if_neg hcL]
        simp [hL]
      · have hcL : j - 1 = j - 1 ∧ j - 1 < N ∧
            rawLeft N cable (j - 1) ≠ none := ⟨rfl, by omega, hL⟩
        rw [if_pos hcL]
    · by_cases hij : i = j
      · have hc2 : ¬(j - 1 = i ∧ i < N ∧ rawLeft N cable (j - 1) ≠ none) :=
          fun h => absurd h.1 (by omega)
        rw [if_neg hc2, hpj i hi, hij, midCell_self,
          if_neg (show ¬(j + 1 = j) by omega), if_pos rfl]
        split <;> rfl
      · have hc1 : ¬(j = i ∧ i < N ∧ rawRight N cable j ≠ none) :=
          fun h => hij h.1.symm
        have hc2 : ¬(j - 1 = i ∧ i < N ∧ rawLeft N cable (j - 1) ≠ none) :=
          fun h => hij1 h.1.symm
        rw [if_neg hc1, if_neg hc2, hpj i hi,
          if_neg (show ¬(i + 1 = j) by omega), if_neg hij]

/-- Pointwise effect of both neighbor blocks as the pass reaches cell `j`:
cell `j - 1` is final, cell `j` holds its raw pair of incoming signals,
cell `j + 1` has received its right-side signal. -/
theorem blocks_getCell (N : Nat) (cable : List Cell) (j : Nat)
    (hjN : j < N) (pj : List Cell) (hlen : pj.length = N)
    (hpj : ∀ i, i < N → getCell pj i = midCell N cable j i) :
    ∀ i, i < N →
      getCell
        (propagateRightBlock N cable (propagateLeftBlock cable pj j) j) i =
        if i + 1 = j then nextCell N cable i
        else if i = j then ⟨rawLeft N cable j, rawRight N cable j⟩
        else if i = j + 1 then ⟨none, rawRight N cable i⟩
        else midCell N cable j i := by
  have hAlen : (propagateLeftBlock cable pj j).length = N := by
    rw [length_leftBlock, hlen]
  have hA := leftBlock_getCell N cable j hjN pj hlen hpj
  intro i hi
  by_cases hjN1 : j = N - 1
  · have hrw : propagateRightBlock N cable (propagateLeftBlock cable pj j) j
        = propagateLeftBlock cable pj j := by
      rw [hjN1]
      exact rightBlock_last N cable _
    rw [hrw, hA i hi]
    by_cases h1 : i + 1 = j
    · rw [if_pos h1, if_pos h1]
    · rw [if_neg h1, if_neg h1]
      by_cases h2 : i = j
      · subst h2
        have hL : rawLeft N cable i = none := by
          unfold rawLeft
          rw [if_neg (show ¬(i < N - 1) by omega)]
        rw [if_pos rfl, if_pos rfl, hL]
      · have h3 : ¬(i = j + 1) := by omega
        rw [if_neg h2, if_neg h2, if_neg h3]
  · rw [rightBlock_eq N cable _ j hjN1 hjN, getCell_putRight, getCell_putLeft,
      length_putLeft, hAlen]
    by_cases hij : i = j
    · have hc1 : ¬(j + 1 = i ∧ i < N ∧ rawRight N cable (j + 1) ≠ none) :=
        fun h => absurd h.1 (by omega)
      rw [if_neg hc1]
      by_cases hL : rawLeft N cable j = none
      · have hc2 : ¬(j = i ∧ i < N ∧ rawLeft N cable j ≠ none) :=
          fun h => h.2.2 hL
        rw [if_neg hc2, hA i hi, if_neg (show ¬(i + 1 = j) by omega),
          if_neg (show ¬(i + 1 = j) by omega), if_pos hij, if_pos hij, hL]
      · have hc2 : j = i ∧ i < N ∧ rawLeft N cable j ≠ none :=
          ⟨hij.symm, hi, hL⟩
        rw [if_pos hc2, hA i hi, if_neg (show ¬(i + 1 = j) by omega),
          if_neg (show ¬(i + 1 = j) by omega), if_pos hij, if_pos hij]
    · by_cases hij1 : i = j + 1
      · have hc2 : ¬(j = i ∧ i < N ∧ rawLeft N cable j ≠ none) :=
          fun h => absurd h.1 (by omega)
        by_cases hR : rawRight N cable (j + 1) = none
        · have hc1 : ¬(j + 1 = i ∧ i < N ∧
              rawRight N cable (j + 1) ≠ none) := fun h => h.2.2 hR
          rw [if_neg hc1, if_neg hc2, hA i hi,
            if_neg (show ¬(i + 1 = j) by omega),
            if_neg (show ¬(i + 1 = j) by omega),
            if_neg hij, if_neg hij, hij1,
            midCell_far N cable j (j + 1) (by omega) (by omega) (by omega),
            if_pos rfl, hR]
        · have hc1 : j + 1 = i ∧ i < N ∧ rawRight N cable (j + 1) ≠ none :=
            ⟨hij1.symm, hi, hR⟩
          rw [if_pos hc1, if_neg hc2, hA i hi,
            if_neg (show ¬(i + 1 = j) by omega),
            if_neg (show ¬(i + 1 = j) by omega),
            if_neg hij, if_neg hij, hij1,
            midCell_far N cable j (j + 1) (by omega) (by omega) (by omega),
            if_pos rfl]
      · have hc1 : ¬(j + 1 = i ∧ i < N ∧ rawRight N cable (j + 1) ≠ none) :=
          fun h => hij1 h.1.symm
        have hc2 : ¬(j = i ∧ i < N ∧ rawLeft N cable j ≠ none) :=
          fun h => hij h.1.symm
        rw [if_neg hc1, if_neg hc2, hA i hi]
        by_cases h1 : i + 1 = j
        · rw [if_pos h1, if_pos h1]
        · rw [if_neg h1, if_neg h1, if_neg hij, if_neg hij, if_neg hij1]

end Ethernet

namespace Ethernet

theorem midCell_succ (N : Nat) (cable : List Cell) (j : Nat) :
    midCell N cable (j + 1) j =
      ⟨if rawLeft N cable j ≠ none ∧ rawRight N cable j ≠ none then some '#'
        else rawLeft N cable j,
       if rawLeft N cable j ≠ none ∧ rawRight N cable j ≠ none then some '#'
        else rawRight N cable j⟩ := by
  unfold midCell
  rw [if_neg (show ¬(j + 1 < j + 1) by omega), if_pos rfl]

theorem chain_to_mid (N : Nat) (cable : List Cell) (j i : Nat)
    (hij : i ≠ j) :
    (if i + 1 = j then nextCell N cable i
     else if i = j then ⟨rawLeft N cable j, rawRight N cable j⟩
     else if i = j + 1 then ⟨none, rawRight N cable i⟩
     else midCell N cable j i) = midCell N cable (j + 1) i := by
  by_cases h1 : i + 1 = j
  · rw [if_pos h1, midCell_lt N cable (j + 1) i (by omega)]
  · rw [if_neg h1, if_neg hij]
    by_cases h2 : i = j + 1
    · rw [if_pos h2, h2, midCell_self]
    · rw [if_neg h2]
      by_cases h3 : i + 1 < j
      · rw [midCell_lt N cable j i h3, midCell_lt N cable (j + 1) i (by omega)]
      · rw [midCell_far N cable j i h3 h1 hij,
          midCell_far N cable (j + 1) i (by omega) (by omega) h2]

/-- Processing cell `j` moves the intermediate description of the
next-state buffer one step forward. -/
theorem step_getCell (N : Nat) (cable : List Cell) (j : Nat)
    (hjN : j < N) (pj : List Cell) (hlen : pj.length = N)
    (hpj : ∀ i, i < N → getCell pj i = midCell N cable j i) :
    ∀ i, i < N →
      getCell (propagateCell N cable pj j) i = midCell N cable (j + 1) i := by
  have hB := blocks_getCell N cable j hjN pj hlen hpj
  have hBlen :
      (propagateRightBlock N cable (propagateLeftBlock cable pj j) j).length
        = N := by
    rw [length_rightBlock, length_leftBlock, hlen]
  have hBj :
      getCell (propagateRightBlock N cable (propagateLeftBlock cable pj j) j)
        j = ⟨rawLeft N cable j, rawRight N cable j⟩ := by
    rw [hB j hjN, if_neg (show ¬(j + 1 = j) by omega), if_pos rfl]
  intro i hi
  unfold propagateCell
  rw [collapseBlock_eq, hBj]
  by_cases hcol : rawLeft N cable j ≠ none ∧ rawRight N cable j ≠ none
  · rw [if_pos hcol, getCell_set, hBlen]
    by_cases hij : i = j
    · rw [if_pos ⟨hij.symm, hi⟩, hij, midCell_succ N cable j,
        if_pos hcol, if_pos hcol]
    · rw [if_neg (fun h => hij h.1.symm), hB i hi, chain_to_mid N cable j i hij]
  · rw [if_neg hcol]
    by_cases hij : i = j
    · rw [hij, hBj, midCell_succ N cable j, if_neg hcol, if_neg hcol]
    · rw [hB i hi, chain_to_mid N cable j i hij]

/-- Full characterization of the intermediate states of the sequential
in-place propagation pass. -/
theorem propagateUpTo_getCell (N : Nat) (cable : List Cell) :
    ∀ j, j ≤ N → ∀ i, i < N →
      getCell (propagateUpTo N cable j) i = midCell N cable j i := by
  intro j
  induction j with
  | zero =>
    intro _ i hi
    unfold propagateUpTo
    simp only [List.range_zero, List.foldl_nil]
    rw [getCell_replicate]
    by_cases hi0 : i = 0
    · rw [hi0, midCell_self]
      unfold rawRight
      rw [if_neg (show ¬((0 : Nat) ≠ 0) by omega)]
      rfl
    · rw [midCell_far N cable 0 i (by omega) (by omega) hi0]
      rfl
  | succ j ih =>
    intro hj i hi
    rw [propagateUpTo_succ]
    exact step_getCell N cable j (by omega) _ (length_propagateUpTo N cable j)
      (fun k hk => ih (by omega) k hk) i hi

/-- THE key fact about the medium: what one full propagation pass leaves
in cell `i`.  The left side is exactly the `rawLeft` pair-rule signal (the
collapse of the Python code is overwritten on the left side by the pass of
cell `i + 1`), while the right side keeps the collapse marker. -/
theorem propagateAll_getCell (N : Nat) (cable : List Cell) (i : Nat)
    (hi : i < N) :
    getCell (propagateAll N cable) i = nextCell N cable i := by
  unfold propagateAll
  rw [propagateUpTo_getCell N cable N (le_refl N) i hi]
  by_cases h1 : i + 1 < N
  · exact midCell_lt N cable N i h1
  · have h2 : i + 1 = N := by omega
    have hL : rawLeft N cable i = none := by
      unfold rawLeft
      rw [if_neg (show ¬(i < N - 1) by omega)]
    unfold midCell nextCell
    rw [if_neg (show ¬(i + 1 < N) by omega), if_pos h2]
    simp [hL]

theorem length_propagateAll (N : Nat) (cable : List Cell) :
    (propagateAll N cable).length = N := length_propagateUpTo N cable N

theorem getCell_propagateAll_out (N : Nat) (cable : List Cell) (i : Nat)
    (hi : N ≤ i) : getCell (propagateAll N cable) i = emptyCell :=
  getCell_out _ i (by rw [length_propagateAll]; exact hi)

end Ethernet

namespace Ethernet

set_option maxRecDepth 10000 in
/-- C1: the three-way neighbor rule does govern each direction of the
pass, but the final collapse clause of the claim fails: on `cableMeet`
(two signals converging on empty cell 6, reachable for the devices of
`main` at even distance), next-state cell 6 ends with both sides present
as plain `'B'` / collision instead of collision on both sides — the
collapse performed while processing cell 6 is overwritten when cell 7's
`propagate` writes its left-bound signal back into `new_cable[6].left`. -/
theorem C1_collapse_clobbered :
    rawLeft 20 cableMeet 6 = some 'B' ∧
    rawRight 20 cableMeet 6 = some 'A' ∧
    getCell (propagateAll 20 cableMeet) 6 = ⟨some 'B', some '#'⟩ ∧
    (getCell (propagateAll 20 cableMeet) 6).left ≠ none ∧
    (getCell (propagateAll 20 cableMeet) 6).right ≠ none ∧
    getCell (propagateAll 20 cableMeet) 6 ≠ ⟨some '#', some '#'⟩ := by
  decide

set_option maxRecDepth 20000 in
/-- C2: collision is not sticky within a propagation step.  The medium
state reached after 3 rounds of the two-device scenario (no device dropped
on the way, as the keep-flags show) has fronts converging on empty cell 6;
during round 4's propagation pass, cell 6 of the next-state buffer holds
the collision marker on both sides right after cell 6 is processed
(prefix 7), and its left side is then reset to the plain identifier `'B'`
when cell 7 is processed (prefix 8), which is also the final state of the
pass. -/
theorem C2_collision_reset_within_step :
    (∀ t, t < 3 →
      (runPass 20 (propagateAll 20 (twoDevRound t).1)
        (twoDevRound t).2).2.map (fun bd => bd.1) = [true, true]) ∧
    getCell (twoDevRound 3).1 5 = ⟨none, some 'A'⟩ ∧
    getCell (twoDevRound 3).1 6 = ⟨none, none⟩ ∧
    getCell (twoDevRound 3).1 7 = ⟨some 'B', none⟩ ∧
    getCell (propagateUpTo 20 (twoDevRound 3).1 7) 6 = ⟨some '#', some '#'⟩ ∧
    getCell (propagateUpTo 20 (twoDevRound 3).1 8) 6 = ⟨some 'B', some '#'⟩ ∧
    getCell (propagateAll 20 (twoDevRound 3).1) 6 = ⟨some 'B', some '#'⟩ := by
  decide

/-- C3: a transmission with `wait > 0`, `sleep = 0` that sees the
collision marker on either side of its cell backs off: `sleep` becomes the
drawn multiplier (1 or 2) times the medium length, `wait` is reset to the
full medium length, the remaining count is reset to the packet length, no
signal is injected and the result is not-finished; and while `sleep > 0`
(with `wait > 0`) a transmission only decrements `sleep` and never touches
the cable. -/
theorem C3_backoff (N : Nat) (t : Transmission) (cable : List Cell)
    (m : Nat) (hw : t.wait > 0) (hs : t.sleep = 0) (hm : m = 1 ∨ m = 2)
    (hc : (getCell cable t.pos).left = some '#' ∨
      (getCell cable t.pos).right = some '#') :
    transmit N t cable m =
      (false, { t with sleep := m * N, wait := N, left := t.len }, cable) ∧
    (m * N = 1 * N ∨ m * N = 2 * N) ∧
    (∀ (t2 : Transmission) (cable2 : List Cell) (m2 : Nat),
      t2.wait > 0 → t2.sleep > 0 →
      transmit N t2 cable2 m2 =
        (false, { t2 with sleep := t2.sleep - 1 }, cable2)) := by
  refine ⟨?_, ?_, ?_⟩
  · unfold transmit
    rw [if_neg (show ¬(t.wait = 0) by omega),
      if_neg (show ¬(t.sleep > 0) by omega), if_pos hc]
  · rcases hm with h | h <;> rw [h] <;> [exact Or.inl rfl; exact Or.inr rfl]
  · intro t2 cable2 m2 h1 h2
    unfold transmit
    rw [if_neg (show ¬(t2.wait = 0) by omega), if_pos h2]

/-- Witness for C3 at a concrete input: the transmission at position 3
sees the collision marker of `cableHash` and backs off with the draw 2. -/
theorem C3_backoff_witness :
    transmit 20 (Transmission.make 20 'A' 3 5) cableHash 2 =
      (false, { Transmission.make 20 'A' 3 5 with
        sleep := 2 * 20,
        wait := 20,
        left := (Transmission.make 20 'A' 3 5).len }, cableHash) :=
  (C3_backoff 20 (Transmission.make 20 'A' 3 5) cableHash 2 (by decide)
    (by decide) (Or.inr rfl) (by decide)).1

/-- C8 counterexample: the claimed fail-fast validation does not exist.
A transmission with an out-of-range position (99 on a medium of length 20)
and packet length 0, and a device with an out-of-range position and an
empty schedule, are all constructed successfully. -/
theorem C8_no_validation_counterexample :
    Transmission.construct 20 'A' 99 0 =
      Except.ok (Transmission.make 20 'A' 99 0) ∧
    (20 : Nat) ≤ 99 ∧
    Device.construct 20 'A' 99 [] = Except.ok (Device.make 20 'A' 99 []) :=
  ⟨rfl, by omega, rfl⟩

/-- C8 amended: construction never fails and performs no validation: for
every configuration, valid or not, the constructors succeed and merely
record the given values (with the documented initial counters). -/
theorem C8_construct_total (N : Nat) (src : Char) (pos len : Nat)
    (name : Char) (dpos : Nat) (schedule : List (Nat × Nat)) :
    Transmission.construct N src pos len =
      Except.ok ⟨src, pos, len, len, N, 0⟩ ∧
    Device.construct N name dpos schedule =
      Except.ok ⟨name, dpos, 0, none,
        schedule.map (fun rl => (rl.1, ⟨name, dpos, rl.2, rl.2, N, 0⟩))⟩ :=
  ⟨rfl, rfl⟩

theorem cable_ext (c1 c2 : List Cell) (n : Nat) (h1 : c1.length = n)
    (h2 : c2.length = n) (h : ∀ i, i < n → getCell c1 i = getCell c2 i) :
    c1 = c2 := by
  apply List.ext_getElem (by omega)
  intro i hi1 hi2
  have hg := h i (by omega)
  simp only [getCell, List.getD_eq_getElem?_getD,
    List.getElem?_eq_getElem hi1, List.getElem?_eq_getElem hi2,
    Option.getD_some] at hg
  exact hg

theorem getCell_eraseEnds_right (N : Nat) (cable : List Cell) (k : Nat)
    (hk : k ≠ N - 1) :
    (getCell (eraseEnds N cable) k).right = (getCell cable k).right := by
  unfold eraseEnds
  rw [getCell_setRight, if_neg (fun h => hk h.1.symm), getCell_setLeft]
  by_cases h0 : 0 = k ∧ k < cable.length
  · rw [if_pos h0]
  · rw [if_neg h0]

theorem getCell_eraseEnds_left (N : Nat) (cable : List Cell) (k : Nat)
    (hk : k ≠ 0) :
    (getCell (eraseEnds N cable) k).left = (getCell cable k).left := by
  unfold eraseEnds
  rw [getCell_setRight]
  by_cases hN : N - 1 = k ∧ k < (setLeft cable 0 none).length
  · rw [if_pos hN]
    show (getCell (setLeft cable 0 none) k).left = _
    rw [getCell_setLeft, if_neg (fun h => hk h.1.symm)]
  · rw [if_neg hN, getCell_setLeft, if_neg (fun h => hk h.1.symm)]

theorem rawLeft_eraseEnds (N : Nat) (cable : List Cell) (i : Nat) :
    rawLeft N (eraseEnds N cable) i = rawLeft N cable i := by
  unfold rawLeft
  by_cases h : i < N - 1
  · rw [if_pos h, if_pos h, getCell_eraseEnds_right N cable i (by omega),
      getCell_eraseEnds_left N cable (i + 1) (by omega)]
  · rw [if_neg h, if_neg h]

theorem rawRight_eraseEnds (N : Nat) (cable : List Cell) (i : Nat)
    (hi : i < N) :
    rawRight N (eraseEnds N cable) i = rawRight N cable i := by
  unfold rawRight
  by_cases h : i ≠ 0
  · rw [if_pos h, if_pos h, getCell_eraseEnds_right N cable (i - 1) (by omega),
      getCell_eraseEnds_left N cable i h]
  · rw [if_neg h, if_neg h]

/-- C10: the medium absorbs at its ends.  No propagation rule reads the
left-bound signal of cell 0 or the right-bound signal of cell `N - 1`:
erasing both leaves the next state of a full propagation pass unchanged,
so after one step those signals are gone and can never reappear. -/
theorem C10_ends_absorbed (N : Nat) (cable : List Cell) :
    propagateAll N (eraseEnds N cable) = propagateAll N cable := by
  apply cable_ext _ _ N (length_propagateAll _ _) (length_propagateAll _ _)
  intro i hi
  rw [propagateAll_getCell _ _ i hi, propagateAll_getCell _ _ i hi]
  unfold nextCell
  rw [rawLeft_eraseEnds, rawRight_eraseEnds N cable i hi]

end Ethernet

namespace Ethernet

set_option maxRecDepth 10000 in
/-- C9 counterexample: a next-state cell that resolves to the same plain
identifier on both sides IS treated as a collision by the collapse check
(which only tests presence, not equality): on `cableSameId` the raw pair
at cell 6 is `'A'`/`'A'`, yet the pass leaves the collision marker on the
cell's right side. -/
theorem C9_same_identifier_collapsed :
    rawLeft 20 cableSameId 6 = some 'A' ∧
    rawRight 20 cableSameId 6 = some 'A' ∧
    (getCell (propagateAll 20 cableSameId) 6).right = some '#' ∧
    getCell (propagateAll 20 cableSameId) 6 ≠ ⟨some 'A', some 'A'⟩ := by
  decide

/-- C9 amended: a cell resolving to the same plain identifier on both
sides is collapsed like any two-sided meeting, but only its right side
keeps the collision marker — the left side retains the identifier — so the
cell still renders that identifier by left-side precedence; the collision
marker is rendered only by a cell that holds it; a fully empty cell
renders the blank marker. -/
theorem C9_render (N : Nat) (cable : List Cell) (i : Nat) (s : Char)
    (hi : i < N) (hs : s ≠ '#') (hL : rawLeft N cable i = some s)
    (hR : rawRight N cable i = some s) :
    getCell (propagateAll N cable) i = ⟨some s, some '#'⟩ ∧
    cellStr (getCell (propagateAll N cable) i) = s ∧
    (∀ c : Cell, cellStr c = '#' →
      c.left = some '#' ∨ c.right = some '#') ∧
    cellStr emptyCell = '_' := by
  have h : getCell (propagateAll N cable) i = ⟨some s, some '#'⟩ := by
    rw [propagateAll_getCell N cable i hi]
    unfold nextCell
    rw [hL, hR]
    simp
  refine ⟨h, ?_, ?_, rfl⟩
  · rw [h]
    rfl
  · intro c hc
    rcases c with ⟨cl, cr⟩
    rcases cl with _ | a
    · rcases cr with _ | b
      · exact absurd hc (by decide)
      · simp only [cellStr] at hc
        exact Or.inr (by rw [hc])
    · simp only [cellStr] at hc
      exact Or.inl (by rw [hc])

set_option maxRecDepth 10000 in
/-- Witness for C9 at the concrete input `cableSameId`, cell 6. -/
theorem C9_render_witness :
    getCell (propagateAll 20 cableSameId) 6 = ⟨some 'A', some '#'⟩ ∧
    cellStr (getCell (propagateAll 20 cableSameId) 6) = 'A' ∧
    (∀ c : Cell, cellStr c = '#' →
      c.left = some '#' ∨ c.right = some '#') ∧
    cellStr emptyCell = '_' :=
  C9_render 20 cableSameId 6 'A' (by decide) (by decide) (by decide)
    (by decide)

/-- C4 counterexample: a device that is still busy with an unfinished
active transmission does NOT pop a due queued entry: `busyDevice`'s head
entry is due (release round 5, counter becomes 11), yet `refresh` leaves
the queue untouched and the active transmission is not the queued one. -/
theorem C4_busy_no_pop :
    busyDevice.round + 1 ≥ 5 ∧
    busyDevice.transmissions = [(5, queuedTrans)] ∧
    (refresh 20 busyDevice emptyCable20 1).1 = true ∧
    (refresh 20 busyDevice emptyCable20 1).2.1.transmissions =
      [(5, queuedTrans)] ∧
    (refresh 20 busyDevice emptyCable20 1).2.1.transmission ≠
      some (transmit 20 queuedTrans emptyCable20 1).2.1 := by
  decide

theorem transmit_finished (N : Nat) (t : Transmission) (cable : List Cell)
    (m : Nat) (h : (transmit N t cable m).1 = true) :
    transmit N t cable m = (true, t, cable) ∧ t.wait = 0 := by
  unfold transmit at h ⊢
  by_cases h0 : t.wait = 0
  · rw [if_pos h0]
    exact ⟨rfl, h0⟩
  · rw [if_neg h0] at h
    split_ifs at h <;> simp_all

/-- C4 amended: `refresh` returns false exactly when, after the round's
processing, the queue is empty and no active transmission remains; and
whenever the device is not blocked by a surviving active transmission
(none, or the active one finished this round) and the queue head is due
for the incremented round counter, `refresh` pops the head, makes it the
active transmission, invokes its `transmit` once in the same round, and
returns true. -/
theorem C4_refresh (N : Nat) (d : Device) (cable : List Cell) (m : Nat) :
    ((refresh N d cable m).1 = false ↔
      ((refresh N d cable m).2.1.transmissions = [] ∧
       (refresh N d cable m).2.1.transmission = none)) ∧
    (∀ r t rest, d.transmissions = (r, t) :: rest → d.round + 1 ≥ r →
      (d.transmission = none ∨
        ∃ ta, d.transmission = some ta ∧ (transmit N ta cable m).1 = true) →
      (refresh N d cable m).1 = true ∧
      (refresh N d cable m).2.1.transmissions = rest ∧
      (refresh N d cable m).2.1.transmission =
        some (transmit N t cable m).2.1) := by
  obtain ⟨nm, p, rd, tr, q⟩ := d
  constructor
  · cases tr with
    | none =>
      cases q with
      | nil => simp [refresh, refreshQueue]
      | cons hd tl =>
        obtain ⟨r, t⟩ := hd
        by_cases hr : rd + 1 ≥ r
        · simp [refresh, refreshQueue, hr]
        · simp [refresh, refreshQueue, hr]
    | some ta =>
      by_cases hf : (transmit N ta cable m).1 = true
      · obtain ⟨he, _⟩ := transmit_finished N ta cable m hf
        cases q with
        | nil => simp [refresh, refreshQueue, he]
        | cons hd tl =>
          obtain ⟨r, t⟩ := hd
          by_cases hr : rd + 1 ≥ r
          · simp [refresh, refreshQueue, he, hr]
          · simp [refresh, refreshQueue, he, hr]
      · simp [refresh, refreshQueue, Bool.not_eq_true] at hf
        simp [refresh, refreshQueue, hf]
  · intro r t rest hq hr hready
    simp only [Device.mk.injEq] at hq ⊢
    subst hq
    rcases hready with hnone | ⟨ta, hta, hfin⟩
    · simp only at hnone
      subst hnone
      simp [refresh, refreshQueue, hr]
    · simp only at hta
      subst hta
      obtain ⟨he, _⟩ := transmit_finished N ta cable m hfin
      simp [refresh, refreshQueue, he, hr]

/-- Witness for C4 at a concrete input: the idle device pops its due head
entry, starts transmitting in the same round, and stays live. -/
theorem C4_refresh_witness :
    (refresh 20 idleDevice emptyCable20 1).1 = true ∧
    (refresh 20 idleDevice emptyCable20 1).2.1.transmissions = [] ∧
    (refresh 20 idleDevice emptyCable20 1).2.1.transmission =
      some (transmit 20 queuedTrans emptyCable20 1).2.1 :=
  (C4_refresh 20 idleDevice emptyCable20 1).2 5 queuedTrans [] rfl
    (by decide) (Or.inl rfl)

end Ethernet

namespace Ethernet

theorem edgeShape_left (a b : Nat) (s : Char) (j : Nat) :
    (edgeShape a b s j).left = if j = a then some s else none := by
  unfold edgeShape
  split_ifs <;> rfl

theorem edgeShape_right (a b : Nat) (s : Char) (j : Nat) (hab : a ≠ b) :
    (edgeShape a b s j).right = if j = b then some s else none := by
  unfold edgeShape
  split_ifs <;> first | rfl | omega

theorem getCell_singleSignal (N i : Nat) (s : Char) (hiN : i < N)
    (j : Nat) :
    getCell (singleSignal N i s) j =
      if j = i then ⟨some s, some s⟩ else emptyCell := by
  unfold singleSignal
  rw [getCell_set]
  by_cases hji : j = i
  · rw [if_pos ⟨hji.symm, by simp [List.length_replicate]; omega⟩, if_pos hji]
  · rw [if_neg (fun h => hji h.1.symm), if_neg hji, getCell_replicate]

theorem singleSignal_left (N i : Nat) (s : Char) (hiN : i < N) (j : Nat) :
    (getCell (singleSignal N i s) j).left =
      if j = i then some s else none := by
  rw [getCell_singleSignal N i s hiN j]
  split_ifs <;> rfl

theorem singleSignal_right (N i : Nat) (s : Char) (hiN : i < N) (j : Nat) :
    (getCell (singleSignal N i s) j).right =
      if j = i then some s else none := by
  rw [getCell_singleSignal N i s hiN j]
  split_ifs <;> rfl

/-- One pass moves the two edges of a lone spreading signal one cell
outward (while both stay strictly inside the medium). -/
theorem edge_step (N a b : Nat) (s : Char) (cable : List Cell)
    (hab : a < b) (ha : 1 ≤ a) (hb : b + 1 < N)
    (hc : ∀ j, j < N → getCell cable j = edgeShape a b s j) :
    ∀ j, j < N →
      getCell (propagateAll N cable) j = edgeShape (a - 1) (b + 1) s j := by
  intro j hj
  rw [propagateAll_getCell N cable j hj]
  have hLj : rawLeft N cable j = if j = a - 1 then some s else none := by
    unfold rawLeft
    by_cases hg : j < N - 1
    · rw [if_pos hg, hc j hj, hc (j + 1) (by omega),
        edgeShape_right a b s j (by omega), edgeShape_left]
      by_cases hjb : j = b <;> by_cases hja : j + 1 = a
      · omega
      · rw [hjb]
        simp [show ¬(b + 1 = a) by omega, show ¬(b = a - 1) by omega]
      · have hje : j = a - 1 := by omega
        rw [hje]
        simp [show ¬(a - 1 = b) by omega, show a - 1 + 1 = a by omega]
      · simp [hjb, hja, show ¬(j = a - 1) by omega]
    · rw [if_neg hg, if_neg (show j ≠ a - 1 by omega)]
  have hRj : rawRight N cable j = if j = b + 1 then some s else none := by
    unfold rawRight
    by_cases hg : j ≠ 0
    · rw [if_pos hg, hc (j - 1) (by omega), hc j hj,
        edgeShape_right a b s (j - 1) (by omega), edgeShape_left]
      by_cases hjb : j - 1 = b <;> by_cases hja : j = a
      · omega
      · have hje : j = b + 1 := by omega
        rw [hje]
        simp [show ¬(b + 1 = a) by omega]
      · rw [hja]
        simp [show ¬(a - 1 = b) by omega, show ¬(a = b + 1) by omega]
      · simp [hjb, hja, show ¬(j = b + 1) by omega]
    · rw [if_neg hg, if_neg (show j ≠ b + 1 by omega)]
  unfold nextCell edgeShape
  rw [hLj, hRj]
  by_cases hA : j = a - 1 <;> by_cases hB : j = b + 1
  · omega
  · rw [hA]
    simp [show ¬(a - 1 = b + 1) by omega]
  · rw [hB]
    simp [show ¬(b + 1 = a - 1) by omega]
  · simp [hA, hB, emptyCell]

/-- The first pass after injection splits the fresh two-sided signal into
its two outward-moving edges. -/
theorem singleSignal_step (N i : Nat) (s : Char) (h1 : 1 ≤ i)
    (h2 : i + 1 < N) :
    ∀ j, j < N →
      getCell (propagateAll N (singleSignal N i s)) j =
        edgeShape (i - 1) (i + 1) s j := by
  intro j hj
  rw [propagateAll_getCell N (singleSignal N i s) j hj]
  have hLj : rawLeft N (singleSignal N i s) j =
      if j = i - 1 then some s else none := by
    unfold rawLeft
    by_cases hg : j < N - 1
    · rw [if_pos hg, singleSignal_right N i s (by omega) j,
        singleSignal_left N i s (by omega) (j + 1)]
      by_cases hji : j = i <;> by_cases hji1 : j + 1 = i
      · omega
      · rw [hji]
        simp [show ¬(i + 1 = i) by omega, show ¬(i = i - 1) by omega]
      · have hje : j = i - 1 := by omega
        rw [hje]
        simp [show ¬(i - 1 = i) by omega, show i - 1 + 1 = i by omega]
      · simp [hji, hji1, show ¬(j = i - 1) by omega]
    · rw [if_neg hg, if_neg (show j ≠ i - 1 by omega)]
  have hRj : rawRight N (singleSignal N i s) j =
      if j = i + 1 then some s else none := by
    unfold rawRight
    by_cases hg : j ≠ 0
    · rw [if_pos hg, singleSignal_right N i s (by omega) (j - 1),
        singleSignal_left N i s (by omega) j]
      by_cases hji : j - 1 = i <;> by_cases hji1 : j = i
      · omega
      · have hje : j = i + 1 := by omega
        rw [hje]
        simp [show ¬(i + 1 = i) by omega]
      · rw [hji1]
        simp [show ¬(i - 1 = i) by omega, show ¬(i = i + 1) by omega]
      · simp [hji, hji1, show ¬(j = i + 1) by omega]
    · rw [if_neg hg, if_neg (show j ≠ i + 1 by omega)]
  unfold nextCell edgeShape
  rw [hLj, hRj]
  by_cases hA : j = i - 1 <;> by_cases hB : j = i + 1
  · omega
  · rw [hA]
    simp [show ¬(i - 1 = i + 1) by omega]
  · rw [hB]
    simp [show ¬(i + 1 = i - 1) by omega]
  · simp [hA, hB, emptyCell]

/-- C6: a lone signal freshly injected at cell `i` of an otherwise empty
medium is, after exactly `k` propagation steps, visible precisely at
cells `i - k` (left-bound) and `i + k` (right-bound) — simultaneously on
both growing edges and at no other cell — for every `k ≥ 1` small enough
that neither edge has passed a medium boundary. -/
theorem C6_propagation_symmetry (N i k : Nat) (s : Char) (hk : 1 ≤ k)
    (hki : k ≤ i) (hkN : i + k < N) :
    ∀ j, j < N →
      getCell ((propagateAll N)^[k] (singleSignal N i s)) j =
        edgeShape (i - k) (i + k) s j := by
  induction k with
  | zero => omega
  | succ k ih =>
    by_cases hk0 : k = 0
    · subst hk0
      intro j hj
      rw [Function.iterate_one]
      exact singleSignal_step N i s (by omega) (by omega) j hj
    · intro j hj
      rw [Function.iterate_succ_apply']
      have hshape := edge_step N (i - k) (i + k) s
        ((propagateAll N)^[k] (singleSignal N i s)) (by omega) (by omega)
        (by omega) (ih (by omega) (by omega) (by omega))
      rw [hshape j hj, show i - k - 1 = i - (k + 1) by omega,
        show i + k + 1 = i + (k + 1) by omega]

/-- Witness for C6: a signal injected at cell 10 of the length-20 medium
sits exactly at cells 7 and 13 after 3 steps, and its injection cell is
clear again. -/
theorem C6_propagation_symmetry_witness :
    getCell ((propagateAll 20)^[3] (singleSignal 20 10 'A')) 7 =
      edgeShape (10 - 3) (10 + 3) 'A' 7 ∧
    getCell ((propagateAll 20)^[3] (singleSignal 20 10 'A')) 13 =
      edgeShape (10 - 3) (10 + 3) 'A' 13 ∧
    getCell ((propagateAll 20)^[3] (singleSignal 20 10 'A')) 10 =
      edgeShape (10 - 3) (10 + 3) 'A' 10 :=
  ⟨C6_propagation_symmetry 20 10 3 'A' (by decide) (by decide) (by decide)
      7 (by decide),
   C6_propagation_symmetry 20 10 3 'A' (by decide) (by decide) (by decide)
      13 (by decide),
   C6_propagation_symmetry 20 10 3 'A' (by decide) (by decide) (by decide)
      10 (by decide)⟩

end Ethernet

namespace Ethernet

theorem set_getCell_self (c : List Cell) (i : Nat) :
    c.set i (getCell c i) = c := by
  induction c generalizing i with
  | nil => rfl
  | cons a t ih =>
    cases i with
    | zero => simp [getCell]
    | succ i =>
      simp only [getCell, List.getD_cons_succ, List.set]
      rw [show t.set i (t.getD i emptyCell) = t from ih i]

/-- `transmit` reads and writes only the cell at the transmission's own
position. -/
theorem transmit_local (N : Nat) (t : Transmission) (cable : List Cell)
    (m : Nat) :
    transmit N t cable m =
      ((transmitCell N t (getCell cable t.pos) m).1,
       (transmitCell N t (getCell cable t.pos) m).2.1,
       cable.set t.pos (transmitCell N t (getCell cable t.pos) m).2.2) := by
  unfold transmit transmitCell newSignal
  split_ifs <;> simp [set_getCell_self]

/-- `refresh` reads only the cell at the device's position (given the
well-placement invariant) and changes only that cell, and what it does
depends on the cable only through that one cell. -/
theorem refresh_local (N : Nat) (d : Device) (c : List Cell) (m : Nat)
    (hd : devWellPlaced d = true) :
    ∃ v : Cell, (refresh N d c m).2.2 = c.set d.pos v ∧
      ∀ c' : List Cell, getCell c' d.pos = getCell c d.pos →
        refresh N d c' m =
          ((refresh N d c m).1, (refresh N d c m).2.1, c'.set d.pos v) := by
  obtain ⟨nm, p, rd, tr, q⟩ := d
  simp only [devWellPlaced, Bool.and_eq_true, List.all_eq_true, beq_iff_eq] at hd
  obtain ⟨hd1, hd2⟩ := hd
  cases tr with
  | none =>
    cases q with
    | nil =>
      refine ⟨getCell c p, by simp [refresh, refreshQueue, set_getCell_self], ?_⟩
      intro c' hag
      simp only [refresh, refreshQueue]
      rw [← hag, set_getCell_self]
    | cons hd' tl =>
      obtain ⟨r, t⟩ := hd'
      have htpos : t.pos = p := by
        have := hd2 (r, t) (by simp)
        simpa using this
      by_cases hr : rd + 1 ≥ r
      · refine ⟨(transmitCell N t (getCell c p) m).2.2, ?_, ?_⟩
        · simp only [refresh, refreshQueue, if_pos hr]
          rw [transmit_local]
          simp [htpos]
        · intro c' hag
          simp only [refresh, refreshQueue, if_pos hr]
          rw [transmit_local, transmit_local]
          simp [htpos, hag]
      · refine ⟨getCell c p, ?_, ?_⟩
        · simp only [refresh, refreshQueue, if_neg hr]
          rw [set_getCell_self]
        · intro c' hag
          simp only [refresh, refreshQueue, if_neg hr]
          rw [← hag, set_getCell_self]
  | some ta =>
    rw [beq_iff_eq] at hd1
    by_cases hf : (transmit N ta c m).1 = true
    · obtain ⟨he, hw⟩ := transmit_finished N ta c m hf
      have hf2 : ∀ c2 : List Cell, transmit N ta c2 m = (true, ta, c2) := by
        intro c2
        unfold transmit
        rw [if_pos hw]
      cases q with
      | nil =>
        refine ⟨getCell c p, ?_, ?_⟩
        · simp [refresh, refreshQueue, hf2, set_getCell_self]
        · intro c' hag
          simp [refresh, refreshQueue, hf2]
          rw [← hag, set_getCell_self]
      | cons hd' tl =>
        obtain ⟨r, t⟩ := hd'
        have htpos : t.pos = p := by
          have := hd2 (r, t) (by simp)
          simpa using this
        by_cases hr : rd + 1 ≥ r
        · refine ⟨(transmitCell N t (getCell c p) m).2.2, ?_, ?_⟩
          · simp only [refresh, refreshQueue, hf2, if_true, if_pos hr]
            rw [transmit_local]
            simp [htpos]
          · intro c' hag
            simp only [refresh, refreshQueue, hf2, if_true, if_pos hr]
            rw [transmit_local, transmit_local]
            simp [htpos, hag]
        · refine ⟨getCell c p, ?_, ?_⟩
          · simp only [refresh, refreshQueue, hf2, if_true, if_neg hr]
            rw [set_getCell_self]
          · intro c' hag
            simp only [refresh, refreshQueue, hf2, if_true, if_neg hr]
            rw [← hag, set_getCell_self]
    · have h1 : (transmitCell N ta (getCell c p) m).1 = false := by
        rw [transmit_local, hd1] at hf
        simpa using hf
      refine ⟨(transmitCell N ta (getCell c p) m).2.2, ?_, ?_⟩
      · simp only [refresh]
        rw [transmit_local, hd1]
        simp [h1]
      · intro c' hag
        simp only [refresh]
        rw [transmit_local, transmit_local, hd1, hag]
        simp [h1]

end Ethernet

namespace Ethernet

/-- Refreshes of two devices at distinct positions commute on the cable. -/
theorem refresh_comm (N : Nat) (x y : Device × Nat) (c : List Cell)
    (hx : devWellPlaced x.1 = true) (hy : devWellPlaced y.1 = true)
    (hxy : x.1.pos ≠ y.1.pos) :
    (refresh N y.1 ((refresh N x.1 c x.2).2.2) y.2).2.2 =
      (refresh N x.1 ((refresh N y.1 c y.2).2.2) x.2).2.2 := by
  obtain ⟨vx, hvx, hx2⟩ := refresh_local N x.1 c x.2 hx
  obtain ⟨vy, hvy, hy2⟩ := refresh_local N y.1 c y.2 hy
  have h1 := hy2 ((refresh N x.1 c x.2).2.2) (by
    rw [hvx, getCell_set, if_neg (fun h => hxy h.1)])
  have h2 := hx2 ((refresh N y.1 c y.2).2.2) (by
    rw [hvy, getCell_set, if_neg (fun h => hxy h.1.symm)])
  rw [h1, h2, hvx, hvy]
  exact List.set_comm _ _ _ hxy

theorem runPass_cable_foldl (N : Nat) (c : List Cell)
    (ds : List (Device × Nat)) :
    (runPass N c ds).1 =
      ds.foldl (fun cc dm => (refresh N dm.1 cc dm.2).2.2) c := by
  induction ds generalizing c with
  | nil => rfl
  | cons dm rest ih => simp [runPass, ih]

/-- With pairwise-distinct positions, each device's refresh outcome
(keep-flag and updated state) is a function of the pre-pass snapshot
alone: sequential cable mutation by other devices cannot influence it. -/
theorem runPass_map (N : Nat) (ds : List (Device × Nat)) :
    ∀ c c' : List Cell,
    (∀ dm ∈ ds, devWellPlaced dm.1 = true) →
    ds.Pairwise (fun a b => a.1.pos ≠ b.1.pos) →
    (∀ dm ∈ ds, getCell c' dm.1.pos = getCell c dm.1.pos) →
    (runPass N c' ds).2 =
      ds.map (fun dm =>
        ((refresh N dm.1 c dm.2).1, (refresh N dm.1 c dm.2).2.1)) := by
  induction ds with
  | nil => intro _ _ _ _ _; rfl
  | cons dm rest ih =>
    intro c c' hwp hpw hag
    obtain ⟨v, hv, hloc⟩ := refresh_local N dm.1 c dm.2 (hwp dm (by simp))
    have hre := hloc c' (hag dm (by simp))
    simp only [runPass, List.map_cons, hre]
    have hag2 : ∀ em ∈ rest, getCell (c'.set dm.1.pos v) em.1.pos =
        getCell c em.1.pos := by
      intro em hem
      rw [getCell_set,
        if_neg (fun h => (List.rel_of_pairwise_cons hpw hem) h.1)]
      exact hag em (by simp [hem])
    rw [ih c (c'.set dm.1.pos v) (fun em hem => hwp em (by simp [hem]))
      (List.Pairwise.sublist (List.sublist_cons_self dm rest) hpw) hag2]

/-- The cable built by a refresh pass is the same after any permutation
of a device list with pairwise-distinct positions and well-placed
transmissions: refreshes at distinct positions commute on the cable. -/
theorem runPass_cable_perm (N : Nat) (c : List Cell)
    (l l' : List (Device × Nat)) (hperm : l.Perm l')
    (hwp : ∀ dm ∈ l, devWellPlaced dm.1 = true)
    (hpw : l.Pairwise (fun a b => a.1.pos ≠ b.1.pos)) :
    (runPass N c l').1 = (runPass N c l).1 := by
  have hsym : Symmetric (fun a b : Device × Nat => a.1.pos ≠ b.1.pos) :=
    fun a b h => h.symm
  rw [runPass_cable_foldl, runPass_cable_foldl]
  refine (hperm.foldl_eq' ?_ c).symm
  intro x hx y hy z
  by_cases hxy : x = y
  · rw [hxy]
  · exact refresh_comm N x y z (hwp x hx) (hwp y hy)
      (hpw.forall hsym hx hy hxy)

/-- `transmitRng` is `transmit` with the draw read off the head of the
stream: the finished-flag and the cable it produces do not depend on the
draw at all. -/
theorem transmitRng_agree (N : Nat) (t : Transmission) (cable : List Cell)
    (rng : List Nat) (m : Nat) :
    (transmitRng N t cable rng).1 = (transmit N t cable m).1 ∧
    (transmitRng N t cable rng).2.2.1 = (transmit N t cable m).2.2 := by
  constructor <;> (unfold transmitRng transmit; split_ifs <;> rfl)

/-- The queue part of a refresh produces the same keep-flag and cable
under the shared-stream model as under any per-call draw. -/
theorem refreshQueueRng_agree (N : Nat) (d : Device) (cable : List Cell)
    (rng : List Nat) (m : Nat) :
    (refreshQueueRng N d cable rng).1 = (refreshQueue N d cable m).1 ∧
    (refreshQueueRng N d cable rng).2.2.1 = (refreshQueue N d cable m).2.2 := by
  unfold refreshQueueRng refreshQueue
  cases d.transmissions with
  | nil => exact ⟨rfl, rfl⟩
  | cons hd rest =>
    obtain ⟨r, t⟩ := hd
    dsimp only
    split_ifs with hr
    · exact ⟨rfl, (transmitRng_agree N t cable rng m).2⟩
    · exact ⟨rfl, rfl⟩

/-- A refresh produces the same keep-flag and cable under the
shared-stream model as under any per-call draw: draws only enter the
backoff `sleep` field of the device's transmission, never the medium. -/
theorem refreshRng_agree (N : Nat) (d : Device) (cable : List Cell)
    (rng : List Nat) (m : Nat) :
    (refreshRng N d cable rng).1 = (refresh N d cable m).1 ∧
    (refreshRng N d cable rng).2.2.1 = (refresh N d cable m).2.2 := by
  unfold refreshRng refresh
  cases d.transmission with
  | none => exact refreshQueueRng_agree N _ cable rng m
  | some t =>
    dsimp only
    have h1 := (transmitRng_agree N t cable rng m).1
    by_cases hf : (transmit N t cable m).1 = true
    · rw [if_pos (h1.trans hf), if_pos hf,
        (transmitRng_agree N t cable rng m).2]
      exact refreshQueueRng_agree N _ _ _ m
    · have hf' : ¬((transmitRng N t cable rng).1 = true) := by
        rw [h1]; exact hf
      rw [if_neg hf', if_neg hf]
      exact ⟨rfl, (transmitRng_agree N t cable rng m).2⟩

/-- The cable built by the shared-stream pass is the cable built by the
per-device-draw pass with any draws: one round's medium never depends on
the backoff draws. -/
theorem runPassRng_cable (N : Nat) (ds : List Device) :
    ∀ (c : List Cell) (rng : List Nat),
    (runPassRng N c ds rng).1 =
      (runPass N c (ds.map (fun d => (d, 1)))).1 := by
  induction ds with
  | nil => intro c rng; rfl
  | cons d rest ih =>
    intro c rng
    simp only [runPassRng, runPass, List.map_cons]
    rw [(refreshRng_agree N d c rng 1).2, ih]

/-- C7 (amended): the per-round device pass is order-independent up to
the assignment of the shared generator's draws.  For every cable snapshot
and device list with pairwise-distinct positions and well-placed
transmissions (both invariants of the program's configuration), running
the pass on any permutation of the device list yields the same final
cable; with each device's backoff draw attached to the device, every
device moreover gets exactly the state it gets from the original order —
its outcome is determined by the shared snapshot and its own draw alone;
and even under the source's shared-stream randomness the resulting medium
is the same for every permutation.  Only the pairing of stream draws with
backing-off devices follows iteration order (refuted part; see the
counterexample). -/
theorem C7_order_independence (N : Nat) (c : List Cell)
    (ds ds' : List (Device × Nat)) (hperm : ds.Perm ds')
    (hwp : ∀ dm ∈ ds, devWellPlaced dm.1 = true)
    (hpw : ds.Pairwise (fun a b => a.1.pos ≠ b.1.pos)) :
    (runPass N c ds').1 = (runPass N c ds).1 ∧
    (runPass N c ds').2 =
      ds'.map (fun dm =>
        ((refresh N dm.1 c dm.2).1, (refresh N dm.1 c dm.2).2.1)) ∧
    (runPass N c ds).2 =
      ds.map (fun dm =>
        ((refresh N dm.1 c dm.2).1, (refresh N dm.1 c dm.2).2.1)) ∧
    ∀ rng : List Nat,
      (runPassRng N c (ds'.map Prod.fst) rng).1 =
        (runPassRng N c (ds.map Prod.fst) rng).1 := by
  have hwp' : ∀ dm ∈ ds', devWellPlaced dm.1 = true :=
    fun dm hm => hwp dm (hperm.mem_iff.mpr hm)
  have hpw' : ds'.Pairwise (fun a b => a.1.pos ≠ b.1.pos) :=
    (hperm.pairwise_iff (fun h => Ne.symm h)).mp hpw
  refine ⟨runPass_cable_perm N c ds ds' hperm hwp hpw,
    runPass_map N ds' c c hwp' hpw' (fun _ _ => rfl),
    runPass_map N ds c c hwp hpw (fun _ _ => rfl), ?_⟩
  intro rng
  rw [runPassRng_cable, runPassRng_cable, List.map_map, List.map_map]
  refine runPass_cable_perm N c (ds.map ((fun d => (d, 1)) ∘ Prod.fst))
    (ds'.map ((fun d => (d, 1)) ∘ Prod.fst)) (hperm.map _) ?_ ?_
  · intro em hem
    obtain ⟨dm, hdm, rfl⟩ := List.mem_map.mp hem
    exact hwp dm hdm
  · exact List.pairwise_map.mpr hpw

/-- Witness for C7: swapping the two devices of the concrete scenario
changes neither the resulting cable (under the per-device-draw pass and
under the shared-stream pass with stream `[1, 2]`) nor either device's
refreshed state. -/
theorem C7_order_independence_witness :
    (runPass 20 emptyCable20
      [(Device.make 20 'B' 9 [(1, 6)], 1), (Device.make 20 'A' 3 [(1, 6)], 1)]).1 =
    (runPass 20 emptyCable20
      [(Device.make 20 'A' 3 [(1, 6)], 1), (Device.make 20 'B' 9 [(1, 6)], 1)]).1 ∧
    (runPass 20 emptyCable20
      [(Device.make 20 'B' 9 [(1, 6)], 1), (Device.make 20 'A' 3 [(1, 6)], 1)]).2 =
      [(Device.make 20 'B' 9 [(1, 6)], 1), (Device.make 20 'A' 3 [(1, 6)], 1)].map
        (fun dm => ((refresh 20 dm.1 emptyCable20 dm.2).1,
          (refresh 20 dm.1 emptyCable20 dm.2).2.1)) ∧
    (runPass 20 emptyCable20
      [(Device.make 20 'A' 3 [(1, 6)], 1), (Device.make 20 'B' 9 [(1, 6)], 1)]).2 =
      [(Device.make 20 'A' 3 [(1, 6)], 1), (Device.make 20 'B' 9 [(1, 6)], 1)].map
        (fun dm => ((refresh 20 dm.1 emptyCable20 dm.2).1,
          (refresh 20 dm.1 emptyCable20 dm.2).2.1)) ∧
    (runPassRng 20 emptyCable20
      ([(Device.make 20 'B' 9 [(1, 6)], 1), (Device.make 20 'A' 3 [(1, 6)], 1)].map
        Prod.fst) [1, 2]).1 =
    (runPassRng 20 emptyCable20
      ([(Device.make 20 'A' 3 [(1, 6)], 1), (Device.make 20 'B' 9 [(1, 6)], 1)].map
        Prod.fst) [1, 2]).1 :=
  have h := C7_order_independence 20 emptyCable20
    [(Device.make 20 'A' 3 [(1, 6)], 1), (Device.make 20 'B' 9 [(1, 6)], 1)]
    [(Device.make 20 'B' 9 [(1, 6)], 1), (Device.make 20 'A' 3 [(1, 6)], 1)]
    (List.Perm.swap _ _ _) (by decide) (by decide)
  ⟨h.1, h.2.1, h.2.2.1, h.2.2.2 [1, 2]⟩

set_option maxRecDepth 40000 in
/-- C7, counterexample to the original claim: under the source's shared
generator the draws go to the devices in iteration order, so permuting
the device list changes per-device states.  Running the concrete
two-device scenario (positions 3 and 9, 6-bit packets released at round
1) under the shared-stream model with stream `[1, 2]` (the values
`random.choice([1, 2])` will return): through round 6 no draw is
consumed and both devices survive; in round 7 both devices observe the
collision marker in the same pass, so both back off in one pass — in
list order device A draws 1 (sleep 20) and B draws 2 (sleep 40), while
in the reversed (permuted) order B draws 1 (sleep 20) and A draws 2
(sleep 40): the same device ends the same reachable round in different
states.  The resulting cables of the two passes are still equal. -/
theorem C7_rng_order_dependent :
    (twoDevRngRound twoDevList [1, 2] 6).2.2 = [1, 2] ∧
    (twoDevRngRound twoDevList [1, 2] 6).2.1.map (fun d => d.name) =
      ['A', 'B'] ∧
    (runPassRng 20 (propagateAll 20 (twoDevRngRound twoDevList [1, 2] 6).1)
        (twoDevRngRound twoDevList [1, 2] 6).2.1 [1, 2]).2.1.map
      (fun bd =>
        (bd.1, bd.2.name, bd.2.transmission.map (fun tr => tr.sleep))) =
      [(true, 'A', some 20), (true, 'B', some 40)] ∧
    (runPassRng 20 (propagateAll 20 (twoDevRngRound twoDevList [1, 2] 6).1)
        (twoDevRngRound twoDevList [1, 2] 6).2.1.reverse [1, 2]).2.1.map
      (fun bd =>
        (bd.1, bd.2.name, bd.2.transmission.map (fun tr => tr.sleep))) =
      [(true, 'B', some 20), (true, 'A', some 40)] ∧
    (runPassRng 20 (propagateAll 20 (twoDevRngRound twoDevList [1, 2] 6).1)
        (twoDevRngRound twoDevList [1, 2] 6).2.1.reverse [1, 2]).1 =
      (runPassRng 20 (propagateAll 20 (twoDevRngRound twoDevList [1, 2] 6).1)
        (twoDevRngRound twoDevList [1, 2] 6).2.1 [1, 2]).1 := by
  decide

end Ethernet

namespace Ethernet

theorem cableInv_rawLeft (N : Nat) (s : Char) (p : Nat) (c : List Cell)
    (h : cableInv s p c) (i : Nat) :
    rawLeft N c i = none ∨ (rawLeft N c i = some s ∧ i < p) := by
  unfold rawLeft
  by_cases hg : i < N - 1
  · rw [if_pos hg]
    by_cases hcol : (getCell c i).right ≠ none ∧ (getCell c (i + 1)).left ≠ none
    · obtain ⟨-, h1⟩ := (h i).2 hcol.1
      obtain ⟨-, h2⟩ := (h (i + 1)).1 hcol.2
      omega
    · rw [if_neg hcol]
      by_cases hL : (getCell c (i + 1)).left = none
      · exact Or.inl hL
      · obtain ⟨hv, hle⟩ := (h (i + 1)).1 hL
        exact Or.inr ⟨hv, by omega⟩
  · rw [if_neg hg]
    exact Or.inl rfl

theorem cableInv_rawRight (N : Nat) (s : Char) (p : Nat) (c : List Cell)
    (h : cableInv s p c) (i : Nat) :
    rawRight N c i = none ∨ (rawRight N c i = some s ∧ p < i) := by
  unfold rawRight
  by_cases hg : i ≠ 0
  · rw [if_pos hg]
    by_cases hcol : (getCell c (i - 1)).right ≠ none ∧ (getCell c i).left ≠ none
    · obtain ⟨-, h1⟩ := (h (i - 1)).2 hcol.1
      obtain ⟨-, h2⟩ := (h i).1 hcol.2
      omega
    · rw [if_neg hcol]
      by_cases hR : (getCell c (i - 1)).right = none
      · exact Or.inl hR
      · obtain ⟨hv, hle⟩ := (h (i - 1)).2 hR
        exact Or.inr ⟨hv, by omega⟩
  · rw [if_neg hg]
    exact Or.inl rfl

/-- The propagation pass preserves the lone-device directional invariant. -/
theorem cableInv_propagate (N : Nat) (s : Char) (p : Nat) (c : List Cell)
    (h : cableInv s p c) : cableInv s p (propagateAll N c) := by
  intro i
  by_cases hi : i < N
  · rw [propagateAll_getCell N c i hi]
    unfold nextCell
    have hL := cableInv_rawLeft N s p c h i
    have hR := cableInv_rawRight N s p c h i
    constructor
    · intro hne
      rcases hL with hL | ⟨hL, hlt⟩
      · exact absurd hL hne
      · exact ⟨hL, by omega⟩
    · intro hne
      rcases hL with hL | ⟨hL, hlt⟩ <;> rcases hR with hR | ⟨hR, hgt⟩
      · rw [if_neg (fun hcc => hcc.2 hR)] at hne ⊢
        exact absurd hR hne
      · rw [if_neg (fun hcc => hcc.1 hL)] at hne ⊢
        exact ⟨hR, by omega⟩
      · rw [if_neg (fun hcc => hcc.2 hR)] at hne ⊢
        exact absurd hR hne
      · omega
  · rw [getCell_out _ i (by rw [length_propagateAll]; omega)]
    exact ⟨fun hne => absurd rfl hne, fun hne => absurd rfl hne⟩

/-- Under the invariant, the device's own cell is empty right after every
propagation pass: nothing ever flows back into position `p`. -/
theorem cableInv_cell_empty (N : Nat) (s : Char) (p : Nat) (c : List Cell)
    (h : cableInv s p c) (hp : p < N) :
    getCell (propagateAll N c) p = emptyCell := by
  rw [propagateAll_getCell N c p hp]
  unfold nextCell
  have hL := cableInv_rawLeft N s p c h p
  have hR := cableInv_rawRight N s p c h p
  have hL2 : rawLeft N c p = none := by
    rcases hL with hL | ⟨_, hlt⟩
    · exact hL
    · omega
  have hR2 : rawRight N c p = none := by
    rcases hR with hR | ⟨_, hgt⟩
    · exact hR
    · omega
  rw [hL2, hR2, if_neg (fun hcc => hcc.1 rfl)]
  rfl

/-- Injecting the device's own signal into its empty cell preserves the
invariant. -/
theorem cableInv_inject (N : Nat) (s : Char) (p : Nat) (c : List Cell)
    (h : cableInv s p c) (hemp : getCell c p = emptyCell) :
    cableInv s p (newSignal c p s) := by
  intro i
  unfold newSignal
  rw [getCell_set]
  by_cases hpi : p = i ∧ i < c.length
  · rw [if_pos hpi, hemp]
    constructor
    · intro _
      exact ⟨by simp [emptyCell], by omega⟩
    · intro _
      exact ⟨by simp [emptyCell], by omega⟩
  · rw [if_neg hpi]
    exact h i

theorem cableInv_replicate (N : Nat) (s : Char) (p : Nat) :
    cableInv s p (List.replicate N emptyCell) := by
  intro i
  rw [getCell_replicate]
  exact ⟨fun hne => absurd rfl hne, fun hne => absurd rfl hne⟩

/-- Evaluating `transmit` against an empty own cell (no backoff pending):
send one bit while bits remain, otherwise count the wait window down. -/
theorem transmit_empty_cell (N : Nat) (t : Transmission) (c : List Cell)
    (m : Nat) (hc : getCell c t.pos = emptyCell) (hw : t.wait ≠ 0)
    (hs : t.sleep = 0) :
    transmit N t c m =
      if t.left = 0 then (false, { t with wait := t.wait - 1 }, c)
      else (false, { t with left := t.left - 1 },
        newSignal c t.pos t.src) := by
  unfold transmit
  rw [if_neg hw, if_neg (show ¬(t.sleep > 0) by omega), hc,
    if_neg (show ¬(emptyCell.left = some '#' ∨ emptyCell.right = some '#')
      by simp [emptyCell])]
  by_cases hl : t.left = 0
  · rw [if_pos hl, if_pos hl]
  · rw [if_neg hl, if_neg hl,
      if_pos (show emptyCell.left = none ∧ emptyCell.right = none from
        ⟨rfl, rfl⟩)]

end Ethernet

namespace Ethernet

/-- One driver round of the lone-device run: the device state follows
`soloDescr`, the cable keeps the directional invariant, and the device
stays live exactly until the round its wait window closes. -/
theorem solo_step (N p len r m : Nat) (s : Char) (hN : 1 ≤ N) (hp : p < N)
    (hlen : 1 ≤ len) (hr : 1 ≤ r) (t : Nat)
    (cd : List Cell × Device) (hd : cd.2 = soloDescr N p len r s t)
    (hc : cableInv s p cd.1) :
    ((driverStep N m cd).1 = true ↔ t + 1 < r + len + N) ∧
    (driverStep N m cd).2.2 = soloDescr N p len r s (t + 1) ∧
    cableInv s p (driverStep N m cd).2.1 := by
  have hc1 : cableInv s p (propagateAll N cd.1) :=
    cableInv_propagate N s p cd.1 hc
  have hemp : getCell (propagateAll N cd.1) p = emptyCell :=
    cableInv_cell_empty N s p cd.1 hc hp
  unfold driverStep
  rw [hd]
  unfold soloDescr
  rcases Nat.lt_or_ge t r with hA | h1
  · -- before release
    rw [if_pos hA]
    rcases Nat.lt_or_ge (t + 1) r with hA2 | hB
    · -- still before release
      simp only [refresh, refreshQueue]
      rw [if_neg (show ¬(t + 1 ≥ r) by omega), if_pos (show t + 1 < r by omega)]
      exact ⟨by simp; omega, rfl, hc1⟩
    · -- release round: pop and send the first bit
      simp only [refresh, refreshQueue]
      rw [if_pos (show t + 1 ≥ r by omega)]
      rw [transmit_empty_cell N (Transmission.make N s p len)
        (propagateAll N cd.1) m hemp (by show N ≠ 0; omega) rfl]
      rw [if_neg (show ¬((Transmission.make N s p len).left = 0) by
        show ¬(len = 0); omega)]
      refine ⟨by simp; omega, ?_, ?_⟩
      · rw [if_neg (show ¬(t + 1 < r) by omega),
          if_pos (show t + 1 < r + len by omega)]
        simp [Transmission.make] <;> omega
      · exact cableInv_inject N s p (propagateAll N cd.1) hc1 hemp
  · rw [if_neg (show ¬(t < r) by omega)]
    rcases Nat.lt_or_ge t (r + len) with hB | h2
    · -- sending phase
      rw [if_pos hB]
      simp only [refresh]
      rcases Nat.lt_or_ge (t + 1) (r + len) with hB2 | hD
      · -- bits still remain: inject one
        rw [transmit_empty_cell N ⟨s, p, len, len - (t - r) - 1, N, 0⟩
          (propagateAll N cd.1) m hemp (by show N ≠ 0; omega) rfl]
        rw [if_neg (show ¬((⟨s, p, len, len - (t - r) - 1, N, 0⟩ :
          Transmission).left = 0) by show ¬(len - (t - r) - 1 = 0); omega)]
        refine ⟨by simp; omega, ?_,
          cableInv_inject N s p (propagateAll N cd.1) hc1 hemp⟩
        rw [if_neg (show ¬(t + 1 < r) by omega), if_pos hB2]
        simp <;> omega
      · -- remaining already zero: the wait countdown starts
        rw [transmit_empty_cell N ⟨s, p, len, len - (t - r) - 1, N, 0⟩
          (propagateAll N cd.1) m hemp (by show N ≠ 0; omega) rfl]
        rw [if_pos (show ((⟨s, p, len, len - (t - r) - 1, N, 0⟩ :
          Transmission).left = 0) by show len - (t - r) - 1 = 0; omega)]
        refine ⟨by simp; omega, ?_, hc1⟩
        rw [if_neg (show ¬(t + 1 < r) by omega),
          if_neg (show ¬(t + 1 < r + len) by omega),
          if_pos (show t + 1 < r + len + N by omega)]
        simp <;> omega
    · rw [if_neg (show ¬(t < r + len) by omega)]
      rcases Nat.lt_or_ge t (r + len + N) with hE | h3
      · -- collision-detection wait phase
        rw [if_pos hE]
        simp only [refresh, refreshQueue]
        rcases Nat.lt_or_ge (t + 1) (r + len + N) with hE2 | hF
        · -- wait still positive after this round
          rw [transmit_empty_cell N ⟨s, p, len, 0, N - (t - (r + len)) - 1, 0⟩
            (propagateAll N cd.1) m hemp
            (by show N - (t - (r + len)) - 1 ≠ 0; omega) rfl]
          rw [if_pos (show ((⟨s, p, len, 0, N - (t - (r + len)) - 1, 0⟩ :
            Transmission).left = 0) from rfl)]
          refine ⟨by simp; omega, ?_, hc1⟩
          rw [if_neg (show ¬(t + 1 < r) by omega),
            if_neg (show ¬(t + 1 < r + len) by omega), if_pos hE2]
          simp <;> omega
        · -- the wait window is zero: transmit reports finished
          rw [show transmit N ⟨s, p, len, 0, N - (t - (r + len)) - 1, 0⟩
              (propagateAll N cd.1) m =
              (true, ⟨s, p, len, 0, N - (t - (r + len)) - 1, 0⟩,
                propagateAll N cd.1) from by
            unfold transmit
            rw [if_pos (show ((⟨s, p, len, 0, N - (t - (r + len)) - 1, 0⟩ :
              Transmission).wait = 0) by
              show N - (t - (r + len)) - 1 = 0; omega)]]
          refine ⟨by simp; omega, ?_, hc1⟩
          simp only [if_true]
          rw [if_neg (show ¬(t + 1 < r) by omega),
            if_neg (show ¬(t + 1 < r + len) by omega),
            if_neg (show ¬(t + 1 < r + len + N) by omega)]
      · -- already idle
        rw [if_neg (show ¬(t < r + len + N) by omega)]
        simp only [refresh, refreshQueue]
        refine ⟨by simp; omega, ?_, hc1⟩
        rw [if_neg (show ¬(t + 1 < r) by omega),
          if_neg (show ¬(t + 1 < r + len) by omega),
          if_neg (show ¬(t + 1 < r + len + N) by omega)]

end Ethernet

namespace Ethernet

/-- Full description of the lone-device run: after every round the device
is in the `soloDescr` state and the cable satisfies the one-device
directional invariant. -/
theorem soloRun_descr (N p len r m : Nat) (s : Char) (hN : 1 ≤ N)
    (hp : p < N) (hlen : 1 ≤ len) (hr : 1 ≤ r) :
    ∀ t, (soloRun N m (soloInit N p len r s) t).2 = soloDescr N p len r s t ∧
      cableInv s p (soloRun N m (soloInit N p len r s) t).1 := by
  intro t
  induction t with
  | zero =>
    constructor
    · show (soloInit N p len r s).2 = _
      unfold soloInit soloDescr Device.make
      rw [if_pos (show (0 : Nat) < r by omega)]
      rfl
    · exact cableInv_replicate N s p
  | succ t ih =>
    have hstep := solo_step N p len r m s hN hp hlen hr t
      (soloRun N m (soloInit N p len r s) t) ih.1 ih.2
    exact ⟨hstep.2.1, hstep.2.2⟩

/-- C5: a lone device with a single scheduled transmission (release round
`r ≥ 1`, length `len ≥ 1`, position `p` on a medium of length `N`) never
observes the collision marker at its position (its cell is in fact empty
after every propagation step); its remaining bit count reaches 0 at round
`r + len - 1` with the full wait window `N` ahead; the wait then
decreases by exactly one per round from `N - 1` down to `0`; and in round
`r + len + N` its `transmit` reports finished: the driver drops the
device, which ends the run with no transmission and an empty queue. -/
theorem C5_lone_device (N p len r m : Nat) (s : Char) (hN : 1 ≤ N)
    (hp : p < N) (hlen : 1 ≤ len) (hr : 1 ≤ r) :
    (∀ t,
      (getCell (propagateAll N (soloRun N m (soloInit N p len r s) t).1)
        p).left ≠ some '#' ∧
      (getCell (propagateAll N (soloRun N m (soloInit N p len r s) t).1)
        p).right ≠ some '#') ∧
    (∃ tr, (soloRun N m (soloInit N p len r s) (r + len - 1)).2.transmission
        = some tr ∧ tr.left = 0 ∧ tr.wait = N) ∧
    (∀ j, j < N →
      ∃ tr, (soloRun N m (soloInit N p len r s) (r + len + j)).2.transmission
          = some tr ∧ tr.left = 0 ∧ tr.wait = N - 1 - j) ∧
    ((driverStep N m (soloRun N m (soloInit N p len r s)
        (r + len + N - 1))).1 = false ∧
     (soloRun N m (soloInit N p len r s) (r + len + N)).2.transmission
        = none ∧
     (soloRun N m (soloInit N p len r s) (r + len + N)).2.transmissions
        = []) := by
  have hmaster := soloRun_descr N p len r m s hN hp hlen hr
  refine ⟨?_, ?_, ?_, ?_, ?_, ?_⟩
  · intro t
    rw [cableInv_cell_empty N s p _ (hmaster t).2 hp]
    constructor <;> intro h <;> exact Option.noConfusion h
  · rw [(hmaster (r + len - 1)).1]
    unfold soloDescr
    rw [if_neg (show ¬(r + len - 1 < r) by omega),
      if_pos (show r + len - 1 < r + len by omega)]
    exact ⟨_, rfl, by show len - (r + len - 1 - r) - 1 = 0; omega, rfl⟩
  · intro j hj
    rw [(hmaster (r + len + j)).1]
    unfold soloDescr
    rw [if_neg (show ¬(r + len + j < r) by omega),
      if_neg (show ¬(r + len + j < r + len) by omega),
      if_pos (show r + len + j < r + len + N by omega)]
    exact ⟨_, rfl, rfl,
      by show N - (r + len + j - (r + len)) - 1 = N - 1 - j; omega⟩
  · have hstep := solo_step N p len r m s hN hp hlen hr (r + len + N - 1)
      (soloRun N m (soloInit N p len r s) (r + len + N - 1))
      (hmaster (r + len + N - 1)).1 (hmaster (r + len + N - 1)).2
    have hflag := hstep.1
    rw [show r + len + N - 1 + 1 = r + len + N by omega] at hflag
    rcases Bool.eq_false_or_eq_true
      (driverStep N m (soloRun N m (soloInit N p len r s)
        (r + len + N - 1))).1 with h | h
    · exact absurd (hflag.mp h) (by omega)
    · exact h
  · rw [(hmaster (r + len + N)).1]
    unfold soloDescr
    rw [if_neg (show ¬(r + len + N < r) by omega),
      if_neg (show ¬(r + len + N < r + len) by omega),
      if_neg (show ¬(r + len + N < r + len + N) by omega)]
  · rw [(hmaster (r + len + N)).1]
    unfold soloDescr
    rw [if_neg (show ¬(r + len + N < r) by omega),
      if_neg (show ¬(r + len + N < r + len) by omega),
      if_neg (show ¬(r + len + N < r + len + N) by omega)]

/-- Witness for C5: the concrete lone device at position 3, packet length
5, release round 1, on the length-20 medium. -/
theorem C5_lone_device_witness :
    (∀ t,
      (getCell (propagateAll 20 (soloRun 20 1 (soloInit 20 3 5 1 'A') t).1)
        3).left ≠ some '#' ∧
      (getCell (propagateAll 20 (soloRun 20 1 (soloInit 20 3 5 1 'A') t).1)
        3).right ≠ some '#') ∧
    (∃ tr, (soloRun 20 1 (soloInit 20 3 5 1 'A') (1 + 5 - 1)).2.transmission
        = some tr ∧ tr.left = 0 ∧ tr.wait = 20) ∧
    (∀ j, j < 20 →
      ∃ tr, (soloRun 20 1 (soloInit 20 3 5 1 'A') (1 + 5 + j)).2.transmission
          = some tr ∧ tr.left = 0 ∧ tr.wait = 20 - 1 - j) ∧
    ((driverStep 20 1 (soloRun 20 1 (soloInit 20 3 5 1 'A')
        (1 + 5 + 20 - 1))).1 = false ∧
     (soloRun 20 1 (soloInit 20 3 5 1 'A') (1 + 5 + 20)).2.transmission
        = none ∧
     (soloRun 20 1 (soloInit 20 3 5 1 'A') (1 + 5 + 20)).2.transmissions
        = []) :=
  C5_lone_device 20 3 5 1 1 'A' (by decide) (by decide) (by decide) (by decide)

end Ethernet
